import Mathlib

/-!
Verification development for the LXST native audio core (C++ sources under
`src/lxst/src/main/cpp/`): lock-free ring buffers, frame resegmentation,
codec adapter wire framing, voice filter chain, loss concealment and engine
lifecycle. The C++ is shallowly embedded: machine `int`/`int16_t` values are
modelled as `Int` (the code only copies samples, it never overflows them),
byte values as `Nat`, and the single-threaded semantics of each member
function is given as a pure state-passing function. Atomic loads/stores are
modelled as plain reads/writes (sequential semantics); memory-ordering
aspects are outside the scope of these theorems.
-/

namespace LXST

/-- Shallow embedding of `PacketRingBuffer` (packet_ring_buffer.h/.cpp):
a fixed-frame SPSC ring buffer. `buffer_` is the flat backing array of
`maxFrames` slots, modelled as a list of frames (each a list of samples);
`writeIndex_`/`readIndex_` are the two wrapping indices. -/
structure PacketRingBuffer where
  maxFrames : ℕ
  frameSamples : ℕ
  buffer : List (List ℤ)
  writeIndex : ℕ
  readIndex : ℕ
deriving DecidableEq

/-- `PacketRingBuffer::PacketRingBuffer(maxFrames, frameSamples)`: allocates
`maxFrames * frameSamples` int16 slots, zeroed, with both indices 0. -/
def PacketRingBuffer.mk0 (maxFrames frameSamples : ℕ) : PacketRingBuffer :=
  { maxFrames := maxFrames
    frameSamples := frameSamples
    buffer := List.replicate maxFrames (List.replicate frameSamples 0)
    writeIndex := 0
    readIndex := 0 }

/-- `PacketRingBuffer::write(samples, count)` (packet_ring_buffer.cpp:18-33):
fails if `count != frameSamples_`; computes `nextW = (w+1) % maxFrames_`,
fails if `nextW == r` (buffer full), otherwise memcpys the frame into slot
`w` and publishes `nextW`. Returns the success flag and the new state. -/
def PacketRingBuffer.write (s : PacketRingBuffer) (samples : List ℤ) (count : ℕ) :
    Bool × PacketRingBuffer :=
  if count ≠ s.frameSamples then (false, s)
  else
    let w := s.writeIndex
    let r := s.readIndex
    let nextW := (w + 1) % s.maxFrames
    if nextW = r then (false, s)
    else (true, { s with buffer := s.buffer.set w samples, writeIndex := nextW })

/-- `PacketRingBuffer::read(dest, count)` (packet_ring_buffer.cpp:35-49):
fails if `count != frameSamples_` or if `r == w` (empty); otherwise returns
the frame in slot `r` and publishes `(r+1) % maxFrames_`. The copied-out
frame is returned instead of mutating a destination pointer. -/
def PacketRingBuffer.read (s : PacketRingBuffer) (count : ℕ) :
    Option (List ℤ) × PacketRingBuffer :=
  if count ≠ s.frameSamples then (none, s)
  else if s.readIndex = s.writeIndex then (none, s)
  else (some (s.buffer.getD s.readIndex []),
        { s with readIndex := (s.readIndex + 1) % s.maxFrames })

/-- The index arithmetic shared verbatim by `PacketRingBuffer::availableFrames`
(packet_ring_buffer.cpp:51-57) and `EncodedRingBuffer::availableSlots`
(encoded_ring_buffer.cpp:68-74): `avail = w - r; if (avail < 0) avail += N`. -/
def ringAvail (maxSlots w r : ℕ) : ℤ :=
  let avail : ℤ := (w : ℤ) - (r : ℤ)
  if avail < 0 then avail + (maxSlots : ℤ) else avail

/-- `PacketRingBuffer::availableFrames()` (packet_ring_buffer.cpp:51-57). -/
def PacketRingBuffer.availableFrames (s : PacketRingBuffer) : ℤ :=
  ringAvail s.maxFrames s.writeIndex s.readIndex

/-- The logical queue of a `PacketRingBuffer`: the frames from the read index
(oldest) up to the write index (newest), in read order. -/
def PacketRingBuffer.contents (s : PacketRingBuffer) : List (List ℤ) :=
  (List.range s.availableFrames.toNat).map
    (fun i => s.buffer.getD ((s.readIndex + i) % s.maxFrames) [])

/-- Shallow embedding of `EncodedRingBuffer` (encoded_ring_buffer.h/.cpp):
SPSC ring of variable-length encoded packets. Each slot stores its `int32`
length and the payload bytes, modelled as a pair. -/
structure EncodedRingBuffer where
  maxSlots : ℕ
  maxBytesPerSlot : ℕ
  slots : List (ℕ × List ℕ)
  writeIndex : ℕ
  readIndex : ℕ
deriving DecidableEq

/-- `EncodedRingBuffer::EncodedRingBuffer(maxSlots, maxBytesPerSlot)`:
zeroed slots, both indices 0. -/
def EncodedRingBuffer.mk0 (maxSlots maxBytesPerSlot : ℕ) : EncodedRingBuffer :=
  { maxSlots := maxSlots
    maxBytesPerSlot := maxBytesPerSlot
    slots := List.replicate maxSlots (0, [])
    writeIndex := 0
    readIndex := 0 }

/-- `EncodedRingBuffer::write(data, length)` (encoded_ring_buffer.cpp:20-38):
fails if `length <= 0 || length > maxBytesPerSlot_` (the `int` argument is
modelled as `ℕ`, so `length <= 0` becomes `length = 0`); fails if full;
otherwise stores the length and the first `length` bytes into slot `w`. -/
def EncodedRingBuffer.write (s : EncodedRingBuffer) (data : List ℕ) (length : ℕ) :
    Bool × EncodedRingBuffer :=
  if length = 0 ∨ s.maxBytesPerSlot < length then (false, s)
  else
    let w := s.writeIndex
    let r := s.readIndex
    let nextW := (w + 1) % s.maxSlots
    if nextW = r then (false, s)
    else (true, { s with slots := s.slots.set w (length, data.take length),
                         writeIndex := nextW })

/-- `EncodedRingBuffer::read(dest, maxLength, actualLength)`
(encoded_ring_buffer.cpp:40-66). Result components mirror the C++ effects:
the returned `Bool` is the return value; the first `Option` is the data
memcpy'd into `dest` (`none` = `dest` untouched); the second `Option` is the
value stored through `actualLength` (`none` = left unwritten, as in the
empty-buffer early return); the final component is the new state. On a
too-small destination the packet is skipped: the read index still advances,
`*actualLength = 0`, and `false` is returned. -/
def EncodedRingBuffer.read (s : EncodedRingBuffer) (maxLength : ℕ) :
    Bool × Option (List ℕ) × Option ℕ × EncodedRingBuffer :=
  let r := s.readIndex
  let w := s.writeIndex
  if r = w then (false, none, none, s)
  else
    let slot := s.slots.getD r (0, [])
    let length := slot.1
    if maxLength < length then
      (false, none, some 0, { s with readIndex := (r + 1) % s.maxSlots })
    else
      (true, some (slot.2.take length), some length,
       { s with readIndex := (r + 1) % s.maxSlots })

/-- `EncodedRingBuffer::availableSlots()` (encoded_ring_buffer.cpp:68-74). -/
def EncodedRingBuffer.availableSlots (s : EncodedRingBuffer) : ℤ :=
  ringAvail s.maxSlots s.writeIndex s.readIndex

/-- The logical queue of an `EncodedRingBuffer`, oldest slot first. -/
def EncodedRingBuffer.contents (s : EncodedRingBuffer) : List (ℕ × List ℕ) :=
  (List.range s.availableSlots.toNat).map
    (fun i => s.slots.getD ((s.readIndex + i) % s.maxSlots) (0, []))

/-! ### C1: fixed-frame ring buffer write/read behaviour -/

/-- Frames for the concrete 4-slot scenario from the spec. -/
def frA : List ℤ := [1, 1]

def frB : List ℤ := [2, 2]

def frC : List ℤ := [3, 3]

def frD : List ℤ := [4, 4]

/-- The buffer state after writing A, B, C into a fresh 4-slot, frame-size-2
ring buffer. -/
def rb3 : PacketRingBuffer :=
  ((((PacketRingBuffer.mk0 4 2).write frA 2).2.write frB 2).2.write frC 2).2

/-- The buffer state after additionally reading one frame and writing D. -/
def rb4 : PacketRingBuffer := ((rb3.read 2).2.write frD 2).2

/-! ### C2: occupancy invariant over arbitrary operation sequences -/

/-- An operation on a `PacketRingBuffer`: a `write(samples, count)` call or a
`read(dest, count)` call. -/
inductive PRBOp where
  | wr (samples : List ℤ) (count : ℕ)
  | rd (count : ℕ)

/-- Run a sequence of operations, counting successful writes and successful
reads (the boolean results of the C++ calls). -/
def PacketRingBuffer.runOps (s : PacketRingBuffer) :
    List PRBOp → PacketRingBuffer × ℕ × ℕ
  | [] => (s, 0, 0)
  | PRBOp.wr samples count :: rest =>
    let step := s.write samples count
    let res := step.2.runOps rest
    (res.1, (if step.1 then 1 else 0) + res.2.1, res.2.2)
  | PRBOp.rd count :: rest =>
    let step := s.read count
    let res := step.2.runOps rest
    (res.1, res.2.1, (if step.1.isSome then 1 else 0) + res.2.2)

/-- An operation on an `EncodedRingBuffer`. -/
inductive ERBOp where
  | wr (data : List ℕ) (length : ℕ)
  | rd (maxLength : ℕ)

/-- Run a sequence of operations on an `EncodedRingBuffer`, counting
successful writes, successful reads, and slot-consuming reads (reads that
advanced the read index; these are the successful reads plus the dropped
too-small-destination reads, recognisable by `*actualLength` having been
written). -/
def EncodedRingBuffer.runOps (s : EncodedRingBuffer) :
    List ERBOp → EncodedRingBuffer × ℕ × ℕ × ℕ
  | [] => (s, 0, 0, 0)
  | ERBOp.wr data length :: rest =>
    let step := s.write data length
    let res := step.2.runOps rest
    (res.1, (if step.1 then 1 else 0) + res.2.1, res.2.2.1, res.2.2.2)
  | ERBOp.rd maxLength :: rest =>
    let step := s.read maxLength
    let res := step.2.2.2.runOps rest
    (res.1, res.2.1, (if step.1 then 1 else 0) + res.2.2.1,
     (if step.2.2.1.isSome then 1 else 0) + res.2.2.2)

/-! ### C3: frame resegmentation in the capture callback -/

/-- The frame-accumulation loop of `OboeCaptureEngine::onAudioReady`
(oboe_capture_engine.cpp:172-224): while samples remain, copy
`toCopy = min(remaining, frameSamples - accumCount)` samples into the
accumulation buffer; when it reaches exactly `frameSamples`, commit the full
frame (collected here into a list; muting/filtering/encoding and the ring
write do not change the frame count or length) and reset the accumulator.
The structural `fuel` argument bounds the iteration count; the C++ loop
consumes at least one input sample per iteration, so `fuel = input.length`
(as used by `accumulate` below) reproduces the loop exactly. -/
def accumulateLoop (F : ℕ) : ℕ → List ℤ → List ℤ → List (List ℤ) × List ℤ
  | _, accum, [] => ([], accum)
  | 0, accum, _ :: _ => ([], accum)
  | fuel + 1, accum, x :: xs =>
    let input := x :: xs
    let needed := F - accum.length
    let toCopy := min input.length needed
    let accum2 := accum ++ input.take toCopy
    let rest := input.drop toCopy
    if accum2.length = F then
      let r := accumulateLoop F fuel [] rest
      (accum2 :: r.1, r.2)
    else
      accumulateLoop F fuel accum2 rest

/-- One capture callback's worth of accumulation: the committed frames and
the new accumulator contents. -/
def OboeCaptureEngine.accumulate (F : ℕ) (accum input : List ℤ) :
    List (List ℤ) × List ℤ :=
  accumulateLoop F input.length accum input

/-- A sequence of capture callbacks: fold `accumulate` over the bursts,
collecting all committed frames in order. -/
def OboeCaptureEngine.processBursts (F : ℕ) (accum : List ℤ) :
    List (List ℤ) → List (List ℤ) × List ℤ
  | [] => ([], accum)
  | b :: bs =>
    let r := OboeCaptureEngine.accumulate F accum b
    let rest := OboeCaptureEngine.processBursts F r.2 bs
    (r.1 ++ rest.1, rest.2)

/-! ### Engine models (C4, C8, C10) -/

/-- `enum class CodecType` (codec_wrapper.h:32). -/
inductive CodecType where
  | NONE
  | OPUS
  | CODEC2
deriving DecidableEq

/-- `oboe::DataCallbackResult`, as returned by the audio callbacks. -/
inductive DataCallbackResult where
  | Continue
  | Stop
deriving DecidableEq

/-- Shallow embedding of `OboePlaybackEngine` (oboe_playback_engine.h):
the fields of the C++ class that carry pipeline state. Owned heap buffers
are modelled as lists; a `none` value for `ringBuffer` models the freed
(`unique_ptr` reset) buffer. The decoder is modelled by its configured type
(`none` = no decoder); its internal codec state lives in the external
library. The four atomic diagnostic counters and the Oboe stream handle are
omitted: no claim mentions them and they feed only logging. -/
structure OboePlaybackEngine where
  sampleRate : ℕ
  channels : ℕ
  frameSamples : ℕ
  prebufferFrames : ℕ
  ringBuffer : Option PacketRingBuffer
  callbackBuffer : List ℤ
  callbackBufferOffset : ℕ
  callbackBufferValid : ℕ
  dropBuffer : List ℤ
  decoder : Option CodecType
  playbackMuted : Bool
  destroyed : Bool
  isCreated : Bool
  isPlaying : Bool
  consecutivePlcCount : ℕ
deriving DecidableEq

/-- `OboePlaybackEngine::writeSamples(samples, count)`
(oboe_playback_engine.cpp:45-57): try to write; on failure drop the oldest
frame by reading into `dropBuffer_` and retry once, returning `false` to
signal that a drop occurred. -/
def OboePlaybackEngine.writeSamples (e : OboePlaybackEngine)
    (samples : List ℤ) (count : ℕ) : Bool × OboePlaybackEngine :=
  match e.ringBuffer with
  | none => (false, e)
  | some rb =>
    let step := rb.write samples count
    if step.1 then (true, { e with ringBuffer := some step.2 })
    else
      let rd := step.2.read count
      let wr2 := rd.2.write samples count
      (false, { e with ringBuffer := some wr2.2,
                       dropBuffer := rd.1.getD e.dropBuffer })

/-- `OboePlaybackEngine::destroy()` (oboe_playback_engine.cpp:79-97): sets
the destroyed flag, stops, frees the ring buffer, the callback/drop buffers
and the decoder, and resets counters. -/
def OboePlaybackEngine.destroy (e : OboePlaybackEngine) : OboePlaybackEngine :=
  { e with destroyed := true, isPlaying := false, decoder := none,
           ringBuffer := none, callbackBuffer := [], dropBuffer := [],
           callbackBufferOffset := 0, callbackBufferValid := 0,
           isCreated := false, consecutivePlcCount := 0 }

/-- A playback engine created with `create(48000, 1, 1, 1, 0)`: a 1-slot
ring buffer with frame size 1 (used to exercise the degenerate
zero-capacity configuration). -/
def pbEngine1 : OboePlaybackEngine :=
  { sampleRate := 48000, channels := 1, frameSamples := 1, prebufferFrames := 0,
    ringBuffer := some (PacketRingBuffer.mk0 1 1), callbackBuffer := [0],
    callbackBufferOffset := 0, callbackBufferValid := 0, dropBuffer := [0],
    decoder := none, playbackMuted := false, destroyed := false,
    isCreated := true, isPlaying := false, consecutivePlcCount := 0 }

/-- The raw-PCM frame commit of `OboeCaptureEngine::onAudioReady`
(oboe_capture_engine.cpp:185-219, Phase-2 branch): apply capture mute by
substituting silence, write the frame; if the ring buffer is full, evict the
oldest frame with a read into a discard scratch and retry the write once.
(Filtering is disabled in this configuration; the Phase-3 encode branch is
`commitEncoded`.) -/
def OboeCaptureEngine.commitFrame (muted : Bool) (F : ℕ)
    (rb : PacketRingBuffer) (frame : List ℤ) : PacketRingBuffer :=
  let frameData := if muted then List.replicate F 0 else frame
  let step := rb.write frameData F
  if step.1 then step.2
  else
    let rd := step.2.read F
    (rd.2.write frameData F).2

/-- The encoded-packet commit of `OboeCaptureEngine::onAudioReady`
(oboe_capture_engine.cpp:204-211, Phase-3 branch): write the encoded packet;
if the encoded ring buffer is full, evict the oldest slot with
`read(discard, 1, &discardLen)` and retry the write once. -/
def OboeCaptureEngine.commitEncoded (erb : EncodedRingBuffer)
    (packet : List ℕ) (encodedLen : ℕ) : EncodedRingBuffer :=
  let step := erb.write packet encodedLen
  if step.1 then step.2
  else
    let rd := step.2.read 1
    (rd.2.2.2.write packet encodedLen).2

/-! ### Codec adapter: Codec2 wire framing (C5, C6) -/

/-- `CodecWrapper::headerToLibraryMode(header)` (codec_wrapper.cpp:221-232):
the explicit wire-header → library-mode table; `-1` for unknown headers. -/
def CodecWrapper.headerToLibraryMode (header : ℕ) : ℤ :=
  if header = 0x00 then 8
  else if header = 0x01 then 5
  else if header = 0x02 then 4
  else if header = 0x03 then 3
  else if header = 0x04 then 2
  else if header = 0x05 then 1
  else if header = 0x06 then 0
  else -1

/-- `CodecWrapper::libraryModeToHeader(libraryMode)`
(codec_wrapper.cpp:234-245): the inverse table; `0xFF` for unknown modes. -/
def CodecWrapper.libraryModeToHeader (libraryMode : ℤ) : ℕ :=
  if libraryMode = 8 then 0x00
  else if libraryMode = 5 then 0x01
  else if libraryMode = 4 then 0x02
  else if libraryMode = 3 then 0x03
  else if libraryMode = 2 then 0x04
  else if libraryMode = 1 then 0x05
  else if libraryMode = 0 then 0x06
  else 0xFF

/-- The Codec2-related state of `CodecWrapper` (codec_wrapper.h:111-115):
the active library mode (standing in for the external `CODEC2*` instance),
the cached wire header and the cached per-mode frame geometry. -/
structure Codec2State where
  c2LibraryMode : ℕ
  c2ModeHeader : ℕ
  c2SamplesPerFrame : ℕ
  c2BytesPerFrame : ℕ
deriving DecidableEq

/-- `CodecWrapper::createCodec2(libraryMode)` (codec_wrapper.cpp:54-75),
restricted to the Codec2 fields. The external library's per-mode frame
geometry (`codec2_samples_per_frame` / `codec2_bytes_per_frame`) is
supplied as the parameters `spf` and `bpf` (the codec engine is a black box
per the spec); `codec2_create` success is assumed. -/
def CodecWrapper.createCodec2 (spf bpf : ℕ → ℕ) (libraryMode : ℕ) :
    Codec2State :=
  { c2LibraryMode := libraryMode
    c2ModeHeader := CodecWrapper.libraryModeToHeader (libraryMode : ℤ)
    c2SamplesPerFrame := spf libraryMode
    c2BytesPerFrame := bpf libraryMode }

/-- `CodecWrapper::decode` (codec_wrapper.cpp:102-146), CODEC2 branch:
fail on an empty packet; if the header byte differs from the active mode,
recreate the codec for the mapped mode (failing on an unknown header);
then decode `floor((encodedBytes-1) / bytesPerFrame)` whole sub-frames,
failing if `numFrames * samplesPerFrame` exceeds `maxOutputSamples`.
Returns the decoded total sample count and the updated state; the PCM
contents come from the external `codec2_decode` and are not modelled. -/
def CodecWrapper.c2Decode (spf bpf : ℕ → ℕ) (st : Codec2State)
    (encoded : List ℕ) (maxOutputSamples : ℕ) : Option (ℕ × Codec2State) :=
  if encoded.length < 1 then none
  else
    let header := encoded.headD 0
    let switched : Option Codec2State :=
      if header ≠ st.c2ModeHeader then
        let newMode := CodecWrapper.headerToLibraryMode header
        if 0 ≤ newMode then
          some { c2LibraryMode := newMode.toNat
                 c2ModeHeader := header
                 c2SamplesPerFrame := spf newMode.toNat
                 c2BytesPerFrame := bpf newMode.toNat }
        else none
      else some st
    match switched with
    | none => none
    | some st2 =>
      let dataLen := encoded.length - 1
      let numFrames := dataLen / st2.c2BytesPerFrame
      let totalSamples := numFrames * st2.c2SamplesPerFrame
      if maxOutputSamples < totalSamples then none
      else some (totalSamples, st2)

/-! ### Voice filter chain: high-pass stage (C7) -/

/-- The in-place recurrence of `VoiceFilterChain::applyHighPass`
(native_audio_filters.cpp:100-107) for samples after the first, exactly as
executed on the shared buffer: `inputDiff = samples[idx] - samples[prevIdx]`
then `samples[idx] = alpha * (samples[prevIdx] + inputDiff)`, where
`samples[prevIdx]` already holds the FILTERED previous sample because the
loop writes in place. Arithmetic is idealised over `ℚ` (the C++ uses
32-bit `float`); which operand each read refers to is unaffected by the
idealisation. -/
def VoiceFilterChain.hpLoop (alpha : ℚ) : ℚ → List ℚ → List ℚ
  | _, [] => []
  | prev, x :: xs =>
    let inputDiff := x - prev
    let y := alpha * (prev + inputDiff)
    y :: VoiceFilterChain.hpLoop alpha y xs

/-- `VoiceFilterChain::applyHighPass(samples, numFrames)`
(native_audio_filters.cpp:90-115), single-channel instance
(`channels_ = 1`, so `idx = i` and `prevIdx = i - 1`): the first sample
uses the persisted state pair (`filterStates[0]`, `lastInputs[0]`), the
remaining samples use the in-place recurrence, and at the end the final
filtered output is saved into BOTH `filterStates[0]` and `lastInputs[0]`
(lines 109-114 read the processed buffer). Returns the filtered samples and
the new (filterState, lastInput) pair. The empty-input branch is never
reached (`process` returns early for `numSamples <= 0`). -/
def VoiceFilterChain.applyHighPass (alpha filterState lastInput : ℚ)
    (samples : List ℚ) : List ℚ × ℚ × ℚ :=
  match samples with
  | [] => ([], filterState, lastInput)
  | x0 :: rest =>
    let inputDiff := x0 - lastInput
    let y0 := alpha * (filterState + inputDiff)
    let out := y0 :: VoiceFilterChain.hpLoop alpha y0 rest
    (out, out.getLastD 0, out.getLastD 0)

/-- Stated from the spec formula (§4.4 High-pass):
`y[n] = α·(y[n-1] + x[n] - x[n-1])` with `x` the RAW input sequence and the
state pair `(y[n-1], x[n-1])` = (last filtered output, last raw input).
This is the comparison point for what the code actually computes. -/
def hpSpecLoop (alpha : ℚ) : ℚ → ℚ → List ℚ → List ℚ
  | _, _, [] => []
  | yprev, xprev, x :: xs =>
    let y := alpha * (yprev + x - xprev)
    y :: hpSpecLoop alpha y x xs

/-- The spec's high-pass over one call, from persisted state `(y0, x0)`. -/
def hpSpecProcess (alpha y0 x0 : ℚ) (samples : List ℚ) : List ℚ :=
  hpSpecLoop alpha y0 x0 samples

/-! ### Playback callback (C8) and capture callback (C10) -/

/-- Modelled from the spec: `CodecWrapper::decodePlc` is called by
`OboePlaybackEngine::onAudioReady` (oboe_playback_engine.cpp:271) but its
definition is missing from the provided sources (codec_wrapper.h/.cpp
declare no such member; only this call site exists). Per the spec (§4.5,
§4.3), it requests a concealment frame from the decoder's prior internal
state for the requested sample count. The concealment content depends on
opaque Opus decoder state and is represented by the parameter `plcVal`;
the returned count is the requested `samplesPerChannel`. -/
def CodecWrapper.decodePlc (plcVal : ℤ) (samplesPerChannel : ℕ) : List ℤ :=
  List.replicate samplesPerChannel plcVal

/-- The frame-serving loop of `OboePlaybackEngine::onAudioReady`
(oboe_playback_engine.cpp:211-258): (1) drain a partially-consumed frame
from `callbackBuffer_`; (2) if a full frame fits, read it directly into the
output; (3) otherwise read into `callbackBuffer_`, serve the prefix and
save the remainder. A successful ring-buffer read resets
`consecutivePlcCount_` to 0. Arguments after `fuel` are the ring buffer,
`callbackBuffer_`, `callbackBufferOffset_`, `callbackBufferValid_`,
`consecutivePlcCount_` and the remaining sample count; the result is the
served samples followed by the updated values of those five state fields.
The structural `fuel` bounds iteration: every C++ iteration either serves
at least one sample or breaks, so `fuel = remaining` (as passed by
`onAudioReady`) reproduces the loop; the two `fuel = 0`/`available = 0`/
`F = 0` guard branches are unreachable under the engine invariants
(`offset < valid` whenever `valid > 0`, `frameSamples ≥ 1`). -/
def OboePlaybackEngine.serveLoop (F : ℕ) :
    ℕ → PacketRingBuffer → List ℤ → ℕ → ℕ → ℕ → ℕ →
    List ℤ × PacketRingBuffer × List ℤ × ℕ × ℕ × ℕ
  | 0, rb, cb, off, val, plc, _ => ([], rb, cb, off, val, plc)
  | fuel + 1, rb, cb, off, val, plc, remaining =>
    if remaining = 0 then ([], rb, cb, off, val, plc)
    else if 0 < val then
      let available := val - off
      if available = 0 then ([], rb, cb, off, val, plc)
      else
        let toCopy := min remaining available
        let chunk := (cb.drop off).take toCopy
        let off2 := off + toCopy
        let offval : ℕ × ℕ := if val ≤ off2 then (0, 0) else (off2, val)
        let rest := OboePlaybackEngine.serveLoop F fuel rb cb offval.1 offval.2
          plc (remaining - toCopy)
        (chunk ++ rest.1, rest.2)
    else if F = 0 then ([], rb, cb, off, val, plc)
    else if F ≤ remaining then
      let rd := rb.read F
      match rd.1 with
      | some frame =>
        let rest := OboePlaybackEngine.serveLoop F fuel rd.2 cb off val 0
          (remaining - F)
        (frame ++ rest.1, rest.2)
      | none => ([], rb, cb, off, val, plc)
    else
      let rd := rb.read F
      match rd.1 with
      | some frame =>
        let rest := OboePlaybackEngine.serveLoop F fuel rd.2 frame remaining F 0 0
        (frame.take remaining ++ rest.1, rest.2)
      | none => ([], rb, cb, off, val, plc)

/-- The underrun tail of `OboePlaybackEngine::onAudioReady`
(oboe_playback_engine.cpp:261-302): if the loop could not fill the burst,
try Opus PLC — decoder configured as Opus and fewer than 5 consecutive
concealment frames — writing the concealment frame into `callbackBuffer_`,
serving up to `remaining` of its samples, zero-filling any shortfall and
incrementing `consecutivePlcCount_`; otherwise fill with silence. The
try-lock on `decoderLock_` always succeeds in this single-threaded model.
Returns (final output, final `callbackBuffer_`, final
`consecutivePlcCount_`). -/
def OboePlaybackEngine.underrunFill (plcVal : ℤ) (e : OboePlaybackEngine)
    (totalSamples : ℕ) (served : List ℤ) (cb : List ℤ) (plcCount : ℕ) :
    List ℤ × List ℤ × ℕ :=
  if served.length < totalSamples then
    let remaining := totalSamples - served.length
    if e.decoder = some CodecType.OPUS ∧ plcCount < 5 then
      let plcFrame := CodecWrapper.decodePlc plcVal (e.frameSamples / e.channels)
      let plcSamples := plcFrame.length
      if 0 < plcSamples then
        let toCopy := min remaining plcSamples
        (served ++ plcFrame.take toCopy ++ List.replicate (remaining - toCopy) 0,
         plcFrame, plcCount + 1)
      else
        (served ++ List.replicate remaining 0, cb, plcCount)
    else
      (served ++ List.replicate remaining 0, cb, plcCount)
  else
    (served, cb, plcCount)

/-- `OboePlaybackEngine::onAudioReady` (oboe_playback_engine.cpp:180-307):
destroyed guard first (zero-fill and Stop), then the mute guard, then the
serving loop and the PLC/silence underrun fill; returns Continue while
`isPlaying_`. The burst is `numFrames` frames = `numFrames * channels_`
samples. Diagnostic counters are omitted. -/
def OboePlaybackEngine.onAudioReady (plcVal : ℤ) (e : OboePlaybackEngine)
    (numFrames : ℕ) : List ℤ × DataCallbackResult × OboePlaybackEngine :=
  let totalSamples := numFrames * e.channels
  if e.destroyed then
    (List.replicate totalSamples 0, DataCallbackResult.Stop, e)
  else if e.playbackMuted then
    (List.replicate totalSamples 0,
     if e.isPlaying then DataCallbackResult.Continue else DataCallbackResult.Stop,
     e)
  else
    match e.ringBuffer with
    | some rb =>
      let sl := OboePlaybackEngine.serveLoop e.frameSamples totalSamples rb
        e.callbackBuffer e.callbackBufferOffset e.callbackBufferValid
        e.consecutivePlcCount totalSamples
      let fill := OboePlaybackEngine.underrunFill plcVal e totalSamples sl.1
        sl.2.2.1 sl.2.2.2.2.2
      (fill.1,
       if e.isPlaying then DataCallbackResult.Continue else DataCallbackResult.Stop,
       { e with ringBuffer := some sl.2.1,
                callbackBuffer := fill.2.1,
                callbackBufferOffset := sl.2.2.2.1,
                callbackBufferValid := sl.2.2.2.2.1,
                consecutivePlcCount := fill.2.2 })
    | none =>
      let fill := OboePlaybackEngine.underrunFill plcVal e totalSamples []
        e.callbackBuffer e.consecutivePlcCount
      (fill.1,
       if e.isPlaying then DataCallbackResult.Continue else DataCallbackResult.Stop,
       { e with callbackBuffer := fill.2.1, consecutivePlcCount := fill.2.2 })

/-- Shallow embedding of `OboeCaptureEngine` (oboe_capture_engine.h),
raw-PCM configuration (no encoder configured — `encodeInCallback_ = false`,
the state `destroyEncoder()` leaves behind — and filters disabled).
`accumBuffer_` is the fixed `frameSamples` array with `accumCount_` valid
entries, modelled as the list of the valid entries; `none` models the freed
buffer. Note: unlike `OboePlaybackEngine`, the class has NO `destroyed_`
flag (oboe_capture_engine.h:136-137 lists only `isCreated_` and
`isRecording_`). -/
structure OboeCaptureEngine where
  sampleRate : ℕ
  channels : ℕ
  frameSamples : ℕ
  ringBuffer : Option PacketRingBuffer
  accumBuffer : Option (List ℤ)
  captureMuted : Bool
  isCreated : Bool
  isRecording : Bool
deriving DecidableEq

/-- `OboeCaptureEngine::destroy()` (oboe_capture_engine.cpp:71-80): stops
the stream (`isRecording_ = false`), frees the ring buffer and accumulation
buffer (`unique_ptr::reset`), resets the accumulator count, and clears
`isCreated_`. No destroyed flag exists to set. -/
def OboeCaptureEngine.destroy (e : OboeCaptureEngine) : OboeCaptureEngine :=
  { e with isRecording := false, ringBuffer := none, accumBuffer := none,
           isCreated := false }

/-- `OboeCaptureEngine::onAudioReady` (oboe_capture_engine.cpp:160-229) in
the raw-PCM configuration: accumulate the burst into frames and commit each
full frame to the ring buffer with mute substitution and evict-retry on
overflow; return Continue while `isRecording_`. The C++ dereferences
`accumBuffer_` and `ringBuffer_` unconditionally — there is no destroyed
check — so a callback arriving after `destroy()` has freed them is
undefined behaviour (a null-pointer dereference), modelled as `none`. -/
def OboeCaptureEngine.onAudioReady (e : OboeCaptureEngine) (input : List ℤ) :
    Option (OboeCaptureEngine × DataCallbackResult) :=
  match e.accumBuffer, e.ringBuffer with
  | some accum, some rb =>
    let r := OboeCaptureEngine.accumulate e.frameSamples accum input
    let rb2 := r.1.foldl
      (OboeCaptureEngine.commitFrame e.captureMuted e.frameSamples) rb
    some ({ e with accumBuffer := some r.2, ringBuffer := some rb2 },
          if e.isRecording then DataCallbackResult.Continue
          else DataCallbackResult.Stop)
  | _, _ => none

/-- A live capture engine: 4-slot ring buffer, frame size 2, recording. -/
def capEngine : OboeCaptureEngine :=
  { sampleRate := 48000, channels := 1, frameSamples := 2,
    ringBuffer := some (PacketRingBuffer.mk0 4 2), accumBuffer := some [],
    captureMuted := false, isCreated := true, isRecording := true }

/-- A playback engine set up for the PLC scenario: 2-slot frame-size-2 ring
buffer, mono, Opus decoder configured, playing, counter at zero. -/
def c8e0 : OboePlaybackEngine :=
  { sampleRate := 8000, channels := 1, frameSamples := 2, prebufferFrames := 0,
    ringBuffer := some (PacketRingBuffer.mk0 2 2), callbackBuffer := [0, 0],
    callbackBufferOffset := 0, callbackBufferValid := 0, dropBuffer := [0, 0],
    decoder := some CodecType.OPUS, playbackMuted := false, destroyed := false,
    isCreated := true, isPlaying := true, consecutivePlcCount := 0 }

/-- The engine after k consecutive underrun callbacks, k = 1..6. -/
def c8e1 : OboePlaybackEngine := (c8e0.onAudioReady 3 2).2.2

def c8e2 : OboePlaybackEngine := (c8e1.onAudioReady 3 2).2.2

def c8e3 : OboePlaybackEngine := (c8e2.onAudioReady 3 2).2.2

def c8e4 : OboePlaybackEngine := (c8e3.onAudioReady 3 2).2.2

def c8e5 : OboePlaybackEngine := (c8e4.onAudioReady 3 2).2.2

def c8e6 : OboePlaybackEngine := (c8e5.onAudioReady 3 2).2.2

/-- The engine after a real frame [7, 7] then arrives. -/
def c8e7 : OboePlaybackEngine := (c8e6.writeSamples [7, 7] 2).2

/-- Concrete per-mode sample counts for the witness instantiation
(matching Codec2: mode 0 "3200" has 160 samples/frame, mode 8 "700C" has
320 samples/frame). -/
def c5spf : ℕ → ℕ := fun m => if m = 8 then 320 else 160

/-- Concrete per-mode byte counts for the witness instantiation
(mode 0 "3200": 8 bytes/frame, mode 8 "700C": 4 bytes/frame). -/
def c5bpf : ℕ → ℕ := fun m => if m = 8 then 4 else 8

/-- A full 3-slot playback ring buffer (2 of 3 slots occupied = capacity
`N-1` reached), frame size 1. -/
def rbFull : PacketRingBuffer :=
  (((PacketRingBuffer.mk0 3 1).write [5] 1).2.write [6] 1).2

/-- A playback engine whose ring buffer is `rbFull`. -/
def pbEngineFull : OboePlaybackEngine :=
  { sampleRate := 48000, channels := 1, frameSamples := 1, prebufferFrames := 0,
    ringBuffer := some rbFull, callbackBuffer := [0],
    callbackBufferOffset := 0, callbackBufferValid := 0, dropBuffer := [0],
    decoder := none, playbackMuted := false, destroyed := false,
    isCreated := true, isPlaying := false, consecutivePlcCount := 0 }

/-- A full 2-slot encoded ring buffer (1 of 2 slots occupied). -/
def erbFull : EncodedRingBuffer := ((EncodedRingBuffer.mk0 2 5).write [9] 1).2

/-! ### Arithmetic facts about the shared ring index protocol -/

lemma ringAvail_nonneg (N w r : ℕ) (hw : w < N) (hr : r < N) :
    0 ≤ ringAvail N w r := by
  simp only [ringAvail]
  split <;> omega

lemma ringAvail_lt (N w r : ℕ) (hw : w < N) (hr : r < N) :
    ringAvail N w r < (N : ℤ) := by
  simp only [ringAvail]
  split <;> omega

/-- The producer-side full test `(w+1) % N == r` holds exactly when `N-1`
slots are occupied: the classic one-slot-always-empty discriminator. -/
lemma ringAvail_full_iff (N w r : ℕ) (hw : w < N) (hr : r < N) :
    ((w + 1) % N = r) ↔ ringAvail N w r = (N : ℤ) - 1 := by
  rcases Nat.lt_or_ge (w + 1) N with h | h
  · rw [Nat.mod_eq_of_lt h]
    simp only [ringAvail]
    split <;> omega
  · have hwN : w + 1 = N := by omega
    rw [hwN, Nat.mod_self]
    simp only [ringAvail]
    split <;> omega

/-- The consumer-side empty test `r == w` holds exactly when no slot is
occupied. -/
lemma ringAvail_empty_iff (N w r : ℕ) (hw : w < N) (hr : r < N) :
    (r = w) ↔ ringAvail N w r = 0 := by
  simp only [ringAvail]
  split <;> omega

/-- A successful write (publishing `(w+1) % N`) raises the occupancy by one. -/
lemma ringAvail_write_succ (N w r : ℕ) (hw : w < N) (hr : r < N)
    (hne : (w + 1) % N ≠ r) :
    ringAvail N ((w + 1) % N) r = ringAvail N w r + 1 := by
  rcases Nat.lt_or_ge (w + 1) N with h | h
  · rw [Nat.mod_eq_of_lt h] at hne ⊢
    simp only [ringAvail]
    split <;> split <;> omega
  · have hwN : w + 1 = N := by omega
    rw [hwN, Nat.mod_self] at hne ⊢
    simp only [ringAvail]
    split <;> split <;> omega

/-- A successful read (publishing `(r+1) % N`) lowers the occupancy by one. -/
lemma ringAvail_read_succ (N w r : ℕ) (hw : w < N) (hr : r < N)
    (hne : r ≠ w) :
    ringAvail N w ((r + 1) % N) = ringAvail N w r - 1 := by
  rcases Nat.lt_or_ge (r + 1) N with h | h
  · rw [Nat.mod_eq_of_lt h]
    simp only [ringAvail]
    split <;> split <;> omega
  · have hrN : r + 1 = N := by omega
    rw [hrN, Nat.mod_self]
    simp only [ringAvail]
    split <;> split <;> omega

/-! ### Unfolding equations for the ring buffer operations -/

lemma PacketRingBuffer.write_succ_eq (s : PacketRingBuffer) (samples : List ℤ)
    (hne : (s.writeIndex + 1) % s.maxFrames ≠ s.readIndex) :
    s.write samples s.frameSamples =
      (true, { s with buffer := s.buffer.set s.writeIndex samples,
                      writeIndex := (s.writeIndex + 1) % s.maxFrames }) := by
  have h0 : ¬(s.frameSamples ≠ s.frameSamples) := by simp
  simp only [PacketRingBuffer.write, if_neg h0, if_neg hne]

lemma PacketRingBuffer.write_full_eq (s : PacketRingBuffer) (samples : List ℤ)
    (hfull : (s.writeIndex + 1) % s.maxFrames = s.readIndex) :
    s.write samples s.frameSamples = (false, s) := by
  have h0 : ¬(s.frameSamples ≠ s.frameSamples) := by simp
  simp only [PacketRingBuffer.write, if_neg h0, if_pos hfull]

lemma PacketRingBuffer.read_succ_eq (s : PacketRingBuffer)
    (hne : s.readIndex ≠ s.writeIndex) :
    s.read s.frameSamples =
      (some (s.buffer.getD s.readIndex []),
       { s with readIndex := (s.readIndex + 1) % s.maxFrames }) := by
  have h0 : ¬(s.frameSamples ≠ s.frameSamples) := by simp
  simp only [PacketRingBuffer.read, if_neg h0, if_neg hne]

lemma PacketRingBuffer.read_empty_eq (s : PacketRingBuffer)
    (hempty : s.readIndex = s.writeIndex) :
    s.read s.frameSamples = (none, s) := by
  have h0 : ¬(s.frameSamples ≠ s.frameSamples) := by simp
  simp only [PacketRingBuffer.read, if_neg h0, if_pos hempty]

/-- First element of the logical queue: the slot under the read index. -/
lemma PacketRingBuffer.contents_headD (s : PacketRingBuffer)
    (hr : s.readIndex < s.maxFrames) (hpos : 0 < s.availableFrames.toNat) :
    s.contents.headD [] = s.buffer.getD s.readIndex [] := by
  obtain ⟨m, hm⟩ : ∃ m, s.availableFrames.toNat = m + 1 :=
    ⟨s.availableFrames.toNat - 1, by omega⟩
  simp only [PacketRingBuffer.contents, hm, List.range_succ_eq_map, List.map_cons,
    List.headD_cons, Nat.add_zero, Nat.mod_eq_of_lt hr]

/-- C1: for the `PacketRingBuffer` with an `N`-slot backing array, a
frame-sized `write` succeeds and stores into the next slot (the slot under
the write index, which then advances) unless the buffer already holds `N-1`
frames, in which case it returns `false` and leaves the state unchanged;
`read` returns the oldest unread frame and advances the read index, and
returns `false` (here: `none`) on an empty buffer. Moreover the concrete
scenario holds: on a 4-slot, frame-size-2 buffer, writes of A, B, C succeed,
a write of D then fails, a read returns A, the write of D then succeeds, and
subsequent reads return B, C, D in order. -/
theorem packetRingBuffer_write_read_correct :
    (∀ (s : LXST.PacketRingBuffer) (samples : List ℤ),
      1 ≤ s.maxFrames → s.writeIndex < s.maxFrames → s.readIndex < s.maxFrames →
      s.buffer.length = s.maxFrames →
      ((s.availableFrames = (s.maxFrames : ℤ) - 1 →
          s.write samples s.frameSamples = (false, s)) ∧
       (s.availableFrames ≠ (s.maxFrames : ℤ) - 1 →
          (s.write samples s.frameSamples).1 = true ∧
          (s.write samples s.frameSamples).2.buffer.getD s.writeIndex [] = samples ∧
          (s.write samples s.frameSamples).2.writeIndex =
            (s.writeIndex + 1) % s.maxFrames ∧
          (s.write samples s.frameSamples).2.readIndex = s.readIndex) ∧
       (s.availableFrames = 0 → s.read s.frameSamples = (none, s)) ∧
       (s.availableFrames ≠ 0 →
          (s.read s.frameSamples).1 = some (s.contents.headD []) ∧
          (s.read s.frameSamples).2.readIndex = (s.readIndex + 1) % s.maxFrames))) ∧
    (((LXST.PacketRingBuffer.mk0 4 2).write LXST.frA 2).1 = true ∧
     (((LXST.PacketRingBuffer.mk0 4 2).write LXST.frA 2).2.write LXST.frB 2).1 = true ∧
     ((((LXST.PacketRingBuffer.mk0 4 2).write LXST.frA 2).2.write
         LXST.frB 2).2.write LXST.frC 2).1 = true ∧
     (LXST.rb3.write LXST.frD 2).1 = false ∧
     (LXST.rb3.read 2).1 = some LXST.frA ∧
     ((LXST.rb3.read 2).2.write LXST.frD 2).1 = true ∧
     (LXST.rb4.read 2).1 = some LXST.frB ∧
     ((LXST.rb4.read 2).2.read 2).1 = some LXST.frC ∧
     (((LXST.rb4.read 2).2.read 2).2.read 2).1 = some LXST.frD) := by
  constructor
  · intro s samples hN hw hr hlen
    refine ⟨?_, ?_, ?_, ?_⟩
    · intro hfull
      exact s.write_full_eq samples
        ((LXST.ringAvail_full_iff s.maxFrames s.writeIndex s.readIndex hw hr).2 hfull)
    · intro hfull
      have hne : (s.writeIndex + 1) % s.maxFrames ≠ s.readIndex := fun h =>
        hfull ((LXST.ringAvail_full_iff s.maxFrames s.writeIndex s.readIndex hw hr).1 h)
      rw [s.write_succ_eq samples hne]
      refine ⟨rfl, ?_, rfl, rfl⟩
      rw [List.getD_eq_getElem _ _ (by simpa [hlen] using hw)]
      simp
    · intro hempty
      exact s.read_empty_eq
        ((LXST.ringAvail_empty_iff s.maxFrames s.writeIndex s.readIndex hw hr).2 hempty)
    · intro hempty
      have hne : s.readIndex ≠ s.writeIndex := fun h =>
        hempty ((LXST.ringAvail_empty_iff s.maxFrames s.writeIndex s.readIndex hw hr).1 h)
      rw [s.read_succ_eq hne]
      refine ⟨?_, rfl⟩
      rw [s.contents_headD hr]
      have h0 := LXST.ringAvail_nonneg s.maxFrames s.writeIndex s.readIndex hw hr
      have h1 := (LXST.ringAvail_empty_iff s.maxFrames s.writeIndex s.readIndex hw hr).not.1 hne
      simp only [LXST.PacketRingBuffer.availableFrames] at *
      omega
  · decide

/-- C1 witness: the general part of
`packetRingBuffer_write_read_correct` applied to the fresh 4-slot buffer:
its occupancy is 0 (not 3), so a frame write succeeds and an immediate read
on the empty buffer fails. -/
theorem packetRingBuffer_write_read_correct_witness :
    ((LXST.PacketRingBuffer.mk0 4 2).write [9, 9] 2).1 = true ∧
    (LXST.PacketRingBuffer.mk0 4 2).read 2 = (none, LXST.PacketRingBuffer.mk0 4 2) := by
  have h := packetRingBuffer_write_read_correct.1 (LXST.PacketRingBuffer.mk0 4 2) [9, 9]
    (by decide) (by decide) (by decide) (by decide)
  exact ⟨(h.2.1 (by decide)).1, h.2.2.1 (by decide)⟩

/-- Case analysis for a single `PacketRingBuffer::write`: it either fails
leaving the state untouched, or succeeds and raises the occupancy by one. -/
lemma PacketRingBuffer.write_cases (s : PacketRingBuffer) (samples : List ℤ)
    (count : ℕ) (hN : 1 ≤ s.maxFrames) (hw : s.writeIndex < s.maxFrames)
    (hr : s.readIndex < s.maxFrames) :
    s.write samples count = (false, s) ∨
    ∃ s', s.write samples count = (true, s') ∧
      s'.maxFrames = s.maxFrames ∧ s'.frameSamples = s.frameSamples ∧
      s'.writeIndex < s.maxFrames ∧ s'.readIndex = s.readIndex ∧
      s'.availableFrames = s.availableFrames + 1 := by
  by_cases hc : count ≠ s.frameSamples
  · left
    simp only [PacketRingBuffer.write, if_pos hc]
  · by_cases hfull : (s.writeIndex + 1) % s.maxFrames = s.readIndex
    · left
      simp only [PacketRingBuffer.write, if_neg hc, if_pos hfull]
    · right
      have hcc : count = s.frameSamples := not_ne_iff.mp hc
      subst hcc
      refine ⟨_, s.write_succ_eq samples hfull, rfl, rfl, Nat.mod_lt _ (by omega), rfl, ?_⟩
      simpa only [PacketRingBuffer.availableFrames] using
        ringAvail_write_succ s.maxFrames s.writeIndex s.readIndex hw hr hfull

/-- Case analysis for a single `PacketRingBuffer::read`: it either fails
leaving the state untouched, or succeeds and lowers the occupancy by one. -/
lemma PacketRingBuffer.read_cases (s : PacketRingBuffer) (count : ℕ)
    (hN : 1 ≤ s.maxFrames) (hw : s.writeIndex < s.maxFrames)
    (hr : s.readIndex < s.maxFrames) :
    s.read count = (none, s) ∨
    ∃ f s', s.read count = (some f, s') ∧
      s'.maxFrames = s.maxFrames ∧ s'.frameSamples = s.frameSamples ∧
      s'.writeIndex = s.writeIndex ∧ s'.readIndex < s.maxFrames ∧
      s'.availableFrames = s.availableFrames - 1 := by
  by_cases hc : count ≠ s.frameSamples
  · left
    simp only [PacketRingBuffer.read, if_pos hc]
  · by_cases hempty : s.readIndex = s.writeIndex
    · left
      simp only [PacketRingBuffer.read, if_neg hc, if_pos hempty]
    · right
      have hcc : count = s.frameSamples := not_ne_iff.mp hc
      subst hcc
      refine ⟨_, _, s.read_succ_eq hempty, rfl, rfl, rfl, Nat.mod_lt _ (by omega), ?_⟩
      simpa only [PacketRingBuffer.availableFrames] using
        ringAvail_read_succ s.maxFrames s.writeIndex s.readIndex hw hr hempty

/-- Invariant of `PacketRingBuffer.runOps`: indices stay in range and the
occupancy moves by exactly (successful writes − successful reads). -/
lemma PacketRingBuffer.runOps_inv (N : ℕ) (hN : 1 ≤ N) :
    ∀ (ops : List PRBOp) (s : PacketRingBuffer),
      s.maxFrames = N → s.writeIndex < N → s.readIndex < N →
      (s.runOps ops).1.maxFrames = N ∧
      (s.runOps ops).1.writeIndex < N ∧
      (s.runOps ops).1.readIndex < N ∧
      (s.runOps ops).1.availableFrames =
        s.availableFrames + ((s.runOps ops).2.1 : ℤ) - ((s.runOps ops).2.2 : ℤ) := by
  intro ops
  induction ops with
  | nil =>
    intro s hm hw hr
    simp only [PacketRingBuffer.runOps]
    exact ⟨hm, hw, hr, by push_cast; ring⟩
  | cons op rest ih =>
    intro s hm hw hr
    cases op with
    | wr samples count =>
      rcases s.write_cases samples count (hm ▸ hN) (hm ▸ hw) (hm ▸ hr) with
        heq | ⟨s', heq, hm', _, hw', hr', ha'⟩
      · have h := ih s hm hw hr
        simp only [PacketRingBuffer.runOps, heq] at *
        refine ⟨h.1, h.2.1, h.2.2.1, ?_⟩
        rw [h.2.2.2]
        push_cast
        ring
      · have h := ih s' (hm'.trans hm) (hm ▸ hw') (hr' ▸ hm ▸ hr)
        simp only [PacketRingBuffer.runOps, heq] at *
        refine ⟨h.1, h.2.1, h.2.2.1, ?_⟩
        rw [h.2.2.2, ha']
        push_cast
        ring
    | rd count =>
      rcases s.read_cases count (hm ▸ hN) (hm ▸ hw) (hm ▸ hr) with
        heq | ⟨f, s', heq, hm', _, hw', hr', ha'⟩
      · have h := ih s hm hw hr
        simp only [PacketRingBuffer.runOps, heq] at *
        refine ⟨h.1, h.2.1, h.2.2.1, ?_⟩
        rw [h.2.2.2]
        simp only [Option.isSome_none, Bool.false_eq_true, if_false]
        push_cast
        ring
      · have h := ih s' (hm'.trans hm) (hw' ▸ hm ▸ hw) (hm ▸ hr')
        simp only [PacketRingBuffer.runOps, heq] at *
        refine ⟨h.1, h.2.1, h.2.2.1, ?_⟩
        rw [h.2.2.2, ha']
        simp only [Option.isSome_some, if_true]
        push_cast
        ring

/-- Case analysis for a single `EncodedRingBuffer::write`. -/
lemma EncodedRingBuffer.writeSlot_cases (s : EncodedRingBuffer) (data : List ℕ)
    (length : ℕ) (hN : 1 ≤ s.maxSlots) (hw : s.writeIndex < s.maxSlots)
    (hr : s.readIndex < s.maxSlots) :
    s.write data length = (false, s) ∨
    ∃ s', s.write data length = (true, s') ∧
      s'.maxSlots = s.maxSlots ∧ s'.maxBytesPerSlot = s.maxBytesPerSlot ∧
      s'.writeIndex < s.maxSlots ∧ s'.readIndex = s.readIndex ∧
      s'.availableSlots = s.availableSlots + 1 := by
  by_cases hbad : length = 0 ∨ s.maxBytesPerSlot < length
  · left
    simp only [EncodedRingBuffer.write, if_pos hbad]
  · by_cases hfull : (s.writeIndex + 1) % s.maxSlots = s.readIndex
    · left
      simp only [EncodedRingBuffer.write, if_neg hbad, if_pos hfull]
    · right
      have heq : s.write data length =
          (true, { s with
                   slots := s.slots.set s.writeIndex (length, data.take length),
                   writeIndex := (s.writeIndex + 1) % s.maxSlots }) := by
        simp only [EncodedRingBuffer.write, if_neg hbad, if_neg hfull]
      refine ⟨_, heq, rfl, rfl, Nat.mod_lt _ (by omega), rfl, ?_⟩
      simpa only [EncodedRingBuffer.availableSlots] using
        ringAvail_write_succ s.maxSlots s.writeIndex s.readIndex hw hr hfull

/-- Case analysis for a single `EncodedRingBuffer::read`: either the buffer
is empty and nothing changes, or the read index advances (whether the packet
was delivered or dropped) and the occupancy drops by one; in both advancing
cases `*actualLength` is written. -/
lemma EncodedRingBuffer.readSlot_cases (s : EncodedRingBuffer) (maxLength : ℕ)
    (hN : 1 ≤ s.maxSlots) (hw : s.writeIndex < s.maxSlots)
    (hr : s.readIndex < s.maxSlots) :
    s.read maxLength = (false, none, none, s) ∨
    ∃ b d a s', s.read maxLength = (b, d, some a, s') ∧
      s'.maxSlots = s.maxSlots ∧ s'.maxBytesPerSlot = s.maxBytesPerSlot ∧
      s'.writeIndex = s.writeIndex ∧ s'.readIndex < s.maxSlots ∧
      s'.availableSlots = s.availableSlots - 1 := by
  by_cases hempty : s.readIndex = s.writeIndex
  · left
    simp only [EncodedRingBuffer.read, if_pos hempty]
  · right
    by_cases hdrop : maxLength < (s.slots.getD s.readIndex (0, [])).1
    · have heq : s.read maxLength =
          (false, none, some 0,
           { s with readIndex := (s.readIndex + 1) % s.maxSlots }) := by
        simp only [EncodedRingBuffer.read, if_neg hempty, if_pos hdrop]
      refine ⟨_, _, _, _, heq, rfl, rfl, rfl, Nat.mod_lt _ (by omega), ?_⟩
      simpa only [EncodedRingBuffer.availableSlots] using
        ringAvail_read_succ s.maxSlots s.writeIndex s.readIndex hw hr hempty
    · have heq : s.read maxLength =
          (true, some ((s.slots.getD s.readIndex (0, [])).2.take
                        (s.slots.getD s.readIndex (0, [])).1),
           some (s.slots.getD s.readIndex (0, [])).1,
           { s with readIndex := (s.readIndex + 1) % s.maxSlots }) := by
        simp only [EncodedRingBuffer.read, if_neg hempty, if_neg hdrop]
      refine ⟨_, _, _, _, heq, rfl, rfl, rfl, Nat.mod_lt _ (by omega), ?_⟩
      simpa only [EncodedRingBuffer.availableSlots] using
        ringAvail_read_succ s.maxSlots s.writeIndex s.readIndex hw hr hempty

/-- Invariant of `EncodedRingBuffer.runOps`: indices stay in range, the
occupancy moves by (successful writes − slot-consuming reads), and every
successful read is a slot-consuming read. -/
lemma EncodedRingBuffer.runSlots_inv (N : ℕ) (hN : 1 ≤ N) :
    ∀ (ops : List ERBOp) (s : EncodedRingBuffer),
      s.maxSlots = N → s.writeIndex < N → s.readIndex < N →
      (s.runOps ops).1.maxSlots = N ∧
      (s.runOps ops).1.writeIndex < N ∧
      (s.runOps ops).1.readIndex < N ∧
      (s.runOps ops).1.availableSlots =
        s.availableSlots + ((s.runOps ops).2.1 : ℤ) - ((s.runOps ops).2.2.2 : ℤ) ∧
      (s.runOps ops).2.2.1 ≤ (s.runOps ops).2.2.2 := by
  intro ops
  induction ops with
  | nil =>
    intro s hm hw hr
    simp only [EncodedRingBuffer.runOps]
    exact ⟨hm, hw, hr, by push_cast; ring, le_refl 0⟩
  | cons op rest ih =>
    intro s hm hw hr
    cases op with
    | wr data length =>
      rcases s.writeSlot_cases data length (hm ▸ hN) (hm ▸ hw) (hm ▸ hr) with
        heq | ⟨s', heq, hm', _, hw', hr', ha'⟩
      · have h := ih s hm hw hr
        simp only [EncodedRingBuffer.runOps, heq] at *
        refine ⟨h.1, h.2.1, h.2.2.1, ?_, h.2.2.2.2⟩
        rw [h.2.2.2.1]
        push_cast
        ring
      · have h := ih s' (hm'.trans hm) (hm ▸ hw') (hr' ▸ hm ▸ hr)
        simp only [EncodedRingBuffer.runOps, heq] at *
        refine ⟨h.1, h.2.1, h.2.2.1, ?_, h.2.2.2.2⟩
        rw [h.2.2.2.1, ha']
        push_cast
        ring
    | rd maxLength =>
      rcases s.readSlot_cases maxLength (hm ▸ hN) (hm ▸ hw) (hm ▸ hr) with
        heq | ⟨b, d, a, s', heq, hm', _, hw', hr', ha'⟩
      · have h := ih s hm hw hr
        simp only [EncodedRingBuffer.runOps, heq] at *
        refine ⟨h.1, h.2.1, h.2.2.1, ?_, ?_⟩
        · rw [h.2.2.2.1]
          simp only [Option.isSome_none, Bool.false_eq_true, if_false]
          push_cast
          ring
        · simpa using h.2.2.2.2
      · have h := ih s' (hm'.trans hm) (hw' ▸ hm ▸ hw) (hm ▸ hr')
        simp only [EncodedRingBuffer.runOps, heq] at *
        refine ⟨h.1, h.2.1, h.2.2.1, ?_, ?_⟩
        · rw [h.2.2.2.1, ha']
          simp only [Option.isSome_some, if_true]
          push_cast
          ring
        · have hRC := h.2.2.2.2
          simp only [Option.isSome_some, if_true]
          cases b <;> simp <;> omega

/-- C2 counterexample: the claim fails for the variable-length
`EncodedRingBuffer`. On a 2-slot buffer, write one 2-byte packet (succeeds)
and then read it with a 1-byte destination: the read is unsuccessful, yet it
skips the packet, so afterwards `availableSlots()` is `0` while (successful
writes − successful reads) mod N is `(1 − 0) % 2 = 1`. -/
theorem ringBuffer_occupancy_counterexample :
    (((LXST.EncodedRingBuffer.mk0 2 2).runOps
        [LXST.ERBOp.wr [5, 5] 2, LXST.ERBOp.rd 1]).2.1 = 1 ∧
     ((LXST.EncodedRingBuffer.mk0 2 2).runOps
        [LXST.ERBOp.wr [5, 5] 2, LXST.ERBOp.rd 1]).2.2.1 = 0 ∧
     ((LXST.EncodedRingBuffer.mk0 2 2).runOps
        [LXST.ERBOp.wr [5, 5] 2, LXST.ERBOp.rd 1]).1.availableSlots = 0) ∧
    ((LXST.EncodedRingBuffer.mk0 2 2).runOps
        [LXST.ERBOp.wr [5, 5] 2, LXST.ERBOp.rd 1]).1.availableSlots ≠
      ((1 : ℤ) - (0 : ℤ)) % (2 : ℤ) := by
  decide

/-- C2 (amended): for every operation sequence from the empty state, on the
fixed-frame buffer the claim holds as stated: successful reads never exceed
successful writes and `availableFrames()` equals (successful writes −
successful reads) mod N. On the variable-length buffer, successful reads
still never exceed successful writes, but `availableSlots()` equals
(successful writes − slot-consuming reads) mod N, where slot-consuming reads
also count the unsuccessful reads that dropped a packet because the
destination was smaller than the stored length. -/
theorem ringBuffer_occupancy_invariant :
    (∀ (N F : ℕ) (ops : List LXST.PRBOp), 1 ≤ N →
      ((LXST.PacketRingBuffer.mk0 N F).runOps ops).2.2 ≤
        ((LXST.PacketRingBuffer.mk0 N F).runOps ops).2.1 ∧
      ((LXST.PacketRingBuffer.mk0 N F).runOps ops).1.availableFrames =
        ((((LXST.PacketRingBuffer.mk0 N F).runOps ops).2.1 : ℤ) -
          (((LXST.PacketRingBuffer.mk0 N F).runOps ops).2.2 : ℤ)) % (N : ℤ)) ∧
    (∀ (N B : ℕ) (ops : List LXST.ERBOp), 1 ≤ N →
      ((LXST.EncodedRingBuffer.mk0 N B).runOps ops).2.2.1 ≤
        ((LXST.EncodedRingBuffer.mk0 N B).runOps ops).2.1 ∧
      ((LXST.EncodedRingBuffer.mk0 N B).runOps ops).1.availableSlots =
        ((((LXST.EncodedRingBuffer.mk0 N B).runOps ops).2.1 : ℤ) -
          (((LXST.EncodedRingBuffer.mk0 N B).runOps ops).2.2.2 : ℤ)) % (N : ℤ)) := by
  constructor
  · intro N F ops hN
    have h := LXST.PacketRingBuffer.runOps_inv N hN ops
      (LXST.PacketRingBuffer.mk0 N F) rfl (by simpa using hN) (by simpa using hN)
    have h0 : (LXST.PacketRingBuffer.mk0 N F).availableFrames = 0 := by
      simp [LXST.PacketRingBuffer.availableFrames, LXST.ringAvail,
        LXST.PacketRingBuffer.mk0]
    rw [h0] at h
    have hnn := LXST.ringAvail_nonneg N _ _ h.2.1 h.2.2.1
    have hlt := LXST.ringAvail_lt N _ _ h.2.1 h.2.2.1
    rw [show LXST.ringAvail N
          ((LXST.PacketRingBuffer.mk0 N F).runOps ops).1.writeIndex
          ((LXST.PacketRingBuffer.mk0 N F).runOps ops).1.readIndex =
        ((LXST.PacketRingBuffer.mk0 N F).runOps ops).1.availableFrames from by
      rw [LXST.PacketRingBuffer.availableFrames, h.1]] at hnn hlt
    constructor
    · have := h.2.2.2
      omega
    · rw [h.2.2.2]
      rw [Int.emod_eq_of_lt (by omega) (by omega)]
      ring
  · intro N B ops hN
    have h := LXST.EncodedRingBuffer.runSlots_inv N hN ops
      (LXST.EncodedRingBuffer.mk0 N B) rfl (by simpa using hN) (by simpa using hN)
    have h0 : (LXST.EncodedRingBuffer.mk0 N B).availableSlots = 0 := by
      simp [LXST.EncodedRingBuffer.availableSlots, LXST.ringAvail,
        LXST.EncodedRingBuffer.mk0]
    rw [h0] at h
    have hnn := LXST.ringAvail_nonneg N _ _ h.2.1 h.2.2.1
    have hlt := LXST.ringAvail_lt N _ _ h.2.1 h.2.2.1
    rw [show LXST.ringAvail N
          ((LXST.EncodedRingBuffer.mk0 N B).runOps ops).1.writeIndex
          ((LXST.EncodedRingBuffer.mk0 N B).runOps ops).1.readIndex =
        ((LXST.EncodedRingBuffer.mk0 N B).runOps ops).1.availableSlots from by
      rw [LXST.EncodedRingBuffer.availableSlots, h.1]] at hnn hlt
    constructor
    · have h1 := h.2.2.2.1
      have h2 := h.2.2.2.2
      omega
    · rw [h.2.2.2.1]
      rw [Int.emod_eq_of_lt (by omega) (by omega)]
      ring

/-- C2 witness: the amended invariant applied to concrete runs — a 4-slot
fixed-frame buffer after one frame write, and the 2-slot variable-length
buffer after the write-then-dropped-read sequence. -/
theorem ringBuffer_occupancy_invariant_witness :
    (((LXST.PacketRingBuffer.mk0 4 2).runOps [LXST.PRBOp.wr [1, 1] 2]).2.2 ≤
       ((LXST.PacketRingBuffer.mk0 4 2).runOps [LXST.PRBOp.wr [1, 1] 2]).2.1 ∧
     ((LXST.PacketRingBuffer.mk0 4 2).runOps
        [LXST.PRBOp.wr [1, 1] 2]).1.availableFrames =
       ((((LXST.PacketRingBuffer.mk0 4 2).runOps [LXST.PRBOp.wr [1, 1] 2]).2.1 : ℤ) -
         (((LXST.PacketRingBuffer.mk0 4 2).runOps
            [LXST.PRBOp.wr [1, 1] 2]).2.2 : ℤ)) % (4 : ℤ)) ∧
    ((LXST.EncodedRingBuffer.mk0 2 2).runOps
        [LXST.ERBOp.wr [5, 5] 2, LXST.ERBOp.rd 1]).2.2.1 ≤
      ((LXST.EncodedRingBuffer.mk0 2 2).runOps
        [LXST.ERBOp.wr [5, 5] 2, LXST.ERBOp.rd 1]).2.1 := by
  refine ⟨?_, ?_⟩
  · exact ringBuffer_occupancy_invariant.1 4 2 [LXST.PRBOp.wr [1, 1] 2] (by decide)
  · exact (ringBuffer_occupancy_invariant.2 2 2
      [LXST.ERBOp.wr [5, 5] 2, LXST.ERBOp.rd 1] (by decide)).1

/-- Characterisation of the accumulation loop: it commits
`(accumCount + inputLength) / F` frames, every committed frame has length
exactly `F`, and the accumulator retains `(accumCount + inputLength) % F`
samples. -/
lemma accumulateLoop_spec (F : ℕ) (hF : 0 < F) :
    ∀ (fuel : ℕ) (accum input : List ℤ), input.length ≤ fuel →
      accum.length < F →
      (accumulateLoop F fuel accum input).1.length =
        (accum.length + input.length) / F ∧
      (∀ f ∈ (accumulateLoop F fuel accum input).1, f.length = F) ∧
      (accumulateLoop F fuel accum input).2.length =
        (accum.length + input.length) % F := by
  intro fuel
  induction fuel with
  | zero =>
    intro accum input hfuel ha
    match input with
    | [] =>
      simp only [accumulateLoop, List.length_nil, Nat.add_zero]
      exact ⟨(Nat.div_eq_of_lt ha).symm, by simp, (Nat.mod_eq_of_lt ha).symm⟩
    | x :: xs => simp at hfuel
  | succ fuel ih =>
    intro accum input hfuel ha
    match input with
    | [] =>
      simp only [accumulateLoop, List.length_nil, Nat.add_zero]
      exact ⟨(Nat.div_eq_of_lt ha).symm, by simp, (Nat.mod_eq_of_lt ha).symm⟩
    | x :: xs =>
      simp only [accumulateLoop]
      set input := x :: xs with hinput
      have hlen1 : 1 ≤ input.length := by simp [hinput]
      set toCopy := min input.length (F - accum.length) with htc
      have htc1 : 1 ≤ toCopy := by omega
      have htcle : toCopy ≤ input.length := by omega
      have haccum2 : (accum ++ input.take toCopy).length = accum.length + toCopy := by
        simp [List.length_take]
        omega
      have hrest : (input.drop toCopy).length = input.length - toCopy := by
        simp [List.length_drop]
      by_cases hfull : (accum ++ input.take toCopy).length = F
      · simp only [if_pos hfull]
        have h2 := ih [] (input.drop toCopy) (by omega) (by simpa using hF)
        have harith : accum.length + input.length =
            F + (input.drop toCopy).length := by omega
        refine ⟨?_, ?_, ?_⟩
        · simp only [List.length_cons, h2.1, List.length_nil, Nat.zero_add, harith]
          rw [Nat.add_comm F _, Nat.add_div_right _ hF]
        · intro f hf
          rcases List.mem_cons.mp hf with hf | hf
          · rw [hf, hfull]
          · exact h2.2.1 f hf
        · rw [h2.2.2, harith, Nat.add_comm F _, Nat.add_mod_right]
          simp
      · simp only [if_neg hfull]
        have htceq : toCopy = input.length := by omega
        have h2 := ih (accum ++ input.take toCopy) (input.drop toCopy)
          (by omega) (by omega)
        refine ⟨?_, h2.2.1, ?_⟩
        · rw [h2.1]
          congr 1
          omega
        · rw [h2.2.2]
          congr 1
          omega

/-- Burst-level characterisation: over any burst chopping, the number of
committed frames, their lengths, and the retained accumulator length depend
only on the total sample count. -/
lemma processBursts_spec (F : ℕ) (hF : 0 < F) :
    ∀ (bursts : List (List ℤ)) (accum : List ℤ), accum.length < F →
      (OboeCaptureEngine.processBursts F accum bursts).1.length =
        (accum.length + (bursts.map List.length).sum) / F ∧
      (∀ f ∈ (OboeCaptureEngine.processBursts F accum bursts).1, f.length = F) ∧
      (OboeCaptureEngine.processBursts F accum bursts).2.length =
        (accum.length + (bursts.map List.length).sum) % F := by
  intro bursts
  induction bursts with
  | nil =>
    intro accum ha
    simp only [OboeCaptureEngine.processBursts, List.map_nil, List.sum_nil,
      Nat.add_zero]
    exact ⟨(Nat.div_eq_of_lt ha).symm, by simp, (Nat.mod_eq_of_lt ha).symm⟩
  | cons b bs ih =>
    intro accum ha
    have h1 := accumulateLoop_spec F hF b.length accum b (le_refl _) ha
    have ha' : (OboeCaptureEngine.accumulate F accum b).2.length < F := by
      rw [OboeCaptureEngine.accumulate, h1.2.2]
      exact Nat.mod_lt _ hF
    have h2 := ih (OboeCaptureEngine.accumulate F accum b).2 ha'
    simp only [OboeCaptureEngine.processBursts]
    refine ⟨?_, ?_, ?_⟩
    · rw [List.length_append, h2.1]
      rw [show (OboeCaptureEngine.accumulate F accum b).1.length =
            (accum.length + b.length) / F from h1.1]
      rw [show (OboeCaptureEngine.accumulate F accum b).2.length =
            (accum.length + b.length) % F from h1.2.2]
      simp only [List.map_cons, List.sum_cons]
      rw [show accum.length + (b.length + (bs.map List.length).sum) =
            (accum.length + b.length) % F + (bs.map List.length).sum +
              F * ((accum.length + b.length) / F) from by
        have := Nat.mod_add_div (accum.length + b.length) F
        omega]
      rw [Nat.add_mul_div_left _ _ hF]
      omega
    · intro f hf
      rcases List.mem_append.mp hf with hf | hf
      · exact h1.2.1 f hf
      · exact h2.2.1 f hf
    · rw [h2.2.2]
      rw [show (OboeCaptureEngine.accumulate F accum b).2.length =
            (accum.length + b.length) % F from h1.2.2]
      simp only [List.map_cons, List.sum_cons]
      conv_rhs => rw [show accum.length + (b.length + (bs.map List.length).sum) =
            (accum.length + b.length) % F + (bs.map List.length).sum +
              F * ((accum.length + b.length) / F) from by
        have := Nat.mod_add_div (accum.length + b.length) F
        omega]
      rw [Nat.add_mul_mod_self_left]

/-- C3: feeding the capture pipeline's accumulation loop any sequence of
bursts whose total sample count is `k · frameSamples`, starting from an
empty accumulator, commits exactly `k` frames, each of length exactly
`frameSamples`, and leaves the accumulator empty again (so no partial frame
is ever committed and the index reset after each commit is reproduced),
regardless of how the bursts are chopped. -/
theorem capture_resegmentation_correct (F k : ℕ) (bursts : List (List ℤ))
    (hF : 0 < F) (htotal : (bursts.map List.length).sum = k * F) :
    (LXST.OboeCaptureEngine.processBursts F [] bursts).1.length = k ∧
    (∀ f ∈ (LXST.OboeCaptureEngine.processBursts F [] bursts).1,
      f.length = F) ∧
    (LXST.OboeCaptureEngine.processBursts F [] bursts).2 = [] := by
  have h := LXST.processBursts_spec F hF bursts [] (by simpa using hF)
  rw [htotal] at h
  refine ⟨?_, h.2.1, ?_⟩
  · rw [h.1]
    simp [Nat.mul_div_cancel _ hF]
  · have := h.2.2
    simp only [List.length_nil, Nat.zero_add, Nat.mul_mod_left] at this
    exact List.length_eq_zero.mp this

/-- C3 witness: three bursts of sizes 2, 3, 1 (total 6 = 2 × 3) into a
frame size of 3 commit exactly the two full frames `[1,2,3]` and `[4,5,6]`
with an empty accumulator left over. -/
theorem capture_resegmentation_correct_witness :
    (LXST.OboeCaptureEngine.processBursts 3 [] [[1, 2], [3, 4, 5], [6]]).1.length = 2 ∧
    (LXST.OboeCaptureEngine.processBursts 3 [] [[1, 2], [3, 4, 5], [6]]).2 = [] := by
  have h := capture_resegmentation_correct 3 2 [[1, 2], [3, 4, 5], [6]]
    (by decide) (by decide)
  exact ⟨h.1, h.2.2⟩

lemma mod_shift_inj (N r i j : ℕ) (hi : i < N) (hj : j < N)
    (h : (r + i) % N = (r + j) % N) : i = j := by
  have h2 : i ≡ j [MOD N] := Nat.ModEq.add_left_cancel' r h
  have h3 : i % N = j % N := h2
  rwa [Nat.mod_eq_of_lt hi, Nat.mod_eq_of_lt hj] at h3

/-- The write index sits `availableFrames` slots beyond the read index. -/
lemma ringAvail_index (N w r : ℕ) (hw : w < N) (hr : r < N) :
    (r + (ringAvail N w r).toNat) % N = w := by
  simp only [ringAvail]
  split
  · have h1 : r + (((w : ℤ) - r) + N).toNat = w + N := by omega
    rw [h1, Nat.add_mod_right, Nat.mod_eq_of_lt hw]
  · have h1 : r + ((w : ℤ) - r).toNat = w := by omega
    rw [h1, Nat.mod_eq_of_lt hw]

/-- A successful write appends the new frame to the logical queue. -/
lemma PacketRingBuffer.contents_after_write (s : PacketRingBuffer)
    (samples : List ℤ)
    (hw : s.writeIndex < s.maxFrames) (hr : s.readIndex < s.maxFrames)
    (hlen : s.buffer.length = s.maxFrames)
    (hne : (s.writeIndex + 1) % s.maxFrames ≠ s.readIndex) :
    (s.write samples s.frameSamples).2.contents = s.contents ++ [samples] := by
  have hN : 0 < s.maxFrames := by omega
  have hnn := ringAvail_nonneg s.maxFrames s.writeIndex s.readIndex hw hr
  have hlt := ringAvail_lt s.maxFrames s.writeIndex s.readIndex hw hr
  have hidx := ringAvail_index s.maxFrames s.writeIndex s.readIndex hw hr
  have havail := ringAvail_write_succ s.maxFrames s.writeIndex s.readIndex hw hr hne
  rw [s.write_succ_eq samples hne]
  simp only [PacketRingBuffer.contents, PacketRingBuffer.availableFrames]
  rw [havail]
  have hton : (ringAvail s.maxFrames s.writeIndex s.readIndex + 1).toNat =
      (ringAvail s.maxFrames s.writeIndex s.readIndex).toNat + 1 := by omega
  rw [hton, List.range_succ, List.map_append, List.map_singleton]
  congr 1
  · apply List.map_congr_left
    intro i hi
    have hi' : i < (ringAvail s.maxFrames s.writeIndex s.readIndex).toNat :=
      List.mem_range.mp hi
    have hmlt : (s.readIndex + i) % s.maxFrames < s.buffer.length := by
      rw [hlen]
      exact Nat.mod_lt _ hN
    have hne2 : s.writeIndex ≠ (s.readIndex + i) % s.maxFrames := by
      intro hcol
      rw [← hidx] at hcol
      have := mod_shift_inj s.maxFrames s.readIndex
        (ringAvail s.maxFrames s.writeIndex s.readIndex).toNat i
        (by omega) (by omega) hcol
      omega
    rw [List.getD_eq_getElem _ _ (by simpa using hmlt),
        List.getD_eq_getElem _ _ hmlt]
    exact List.getElem_set_ne hne2 _
  · rw [hidx]
    have hmlt : s.writeIndex < (s.buffer.set s.writeIndex samples).length := by
      simpa [hlen] using hw
    rw [List.getD_eq_getElem _ _ hmlt]
    rw [List.getElem_set_self]

/-- A successful read removes the oldest frame from the logical queue. -/
lemma PacketRingBuffer.contents_after_read (s : PacketRingBuffer)
    (hw : s.writeIndex < s.maxFrames) (hr : s.readIndex < s.maxFrames)
    (hne : s.readIndex ≠ s.writeIndex) :
    (s.read s.frameSamples).2.contents = s.contents.drop 1 := by
  have hN : 0 < s.maxFrames := by omega
  have hnn := ringAvail_nonneg s.maxFrames s.writeIndex s.readIndex hw hr
  have hpos : ringAvail s.maxFrames s.writeIndex s.readIndex ≠ 0 := by
    intro h0
    exact hne ((ringAvail_empty_iff s.maxFrames s.writeIndex s.readIndex hw hr).2 h0)
  have havail := ringAvail_read_succ s.maxFrames s.writeIndex s.readIndex hw hr hne
  rw [s.read_succ_eq hne]
  simp only [PacketRingBuffer.contents, PacketRingBuffer.availableFrames]
  rw [havail]
  obtain ⟨m, hm⟩ :
      ∃ m, (ringAvail s.maxFrames s.writeIndex s.readIndex).toNat = m + 1 :=
    ⟨(ringAvail s.maxFrames s.writeIndex s.readIndex).toNat - 1, by omega⟩
  have hton : (ringAvail s.maxFrames s.writeIndex s.readIndex - 1).toNat = m := by
    omega
  rw [hton, hm, List.range_succ_eq_map, List.map_cons, List.drop_one,
      List.tail_cons, List.map_map]
  apply List.map_congr_left
  intro i hi
  simp only [Function.comp]
  rw [Nat.mod_add_mod]
  congr 2
  omega

/-- Whenever the buffer is nonempty, `EncodedRingBuffer::read` advances the
read index by one slot, whether the packet is delivered or dropped. -/
lemma EncodedRingBuffer.read_advance_eq (s : EncodedRingBuffer) (maxLength : ℕ)
    (hne : s.readIndex ≠ s.writeIndex) :
    (s.read maxLength).2.2.2 =
      { s with readIndex := (s.readIndex + 1) % s.maxSlots } := by
  by_cases hdrop : maxLength < (s.slots.getD s.readIndex (0, [])).1
  · simp only [EncodedRingBuffer.read, if_neg hne, if_pos hdrop]
  · simp only [EncodedRingBuffer.read, if_neg hne, if_neg hdrop]

/-- C4 counterexample: with a 1-slot backing array (usable capacity
`N-1 = 0`, reachable via `create(..., maxBufferFrames = 1, ...)`), the
buffer is "full" while holding 0 frames, so the producer write fails; the
eviction read then finds the buffer empty and fails, and the retried write
fails again: the frame is lost and the retried write did NOT succeed. -/
theorem evict_oldest_retry_counterexample :
    ((PacketRingBuffer.mk0 1 1).availableFrames = (1 : ℤ) - 1 ∧
     ((PacketRingBuffer.mk0 1 1).write [7] 1).1 = false) ∧
    (((PacketRingBuffer.mk0 1 1).read 1).1 = none ∧
     (((PacketRingBuffer.mk0 1 1).read 1).2.write [7] 1).1 = false) ∧
    (pbEngine1.writeSamples [7] 1).2.ringBuffer =
      some (PacketRingBuffer.mk0 1 1) := by
  decide

/-- C4 (amended): whenever a producer-side write to a full ring buffer with
at least 2 slots fails, the pipeline evicts exactly the oldest slot by one
read into a scratch buffer and retries the write once; that retried write
succeeds, and afterwards the buffer holds the most recent frames with only
the oldest one lost. This holds for the playback producer
(`OboePlaybackEngine::writeSamples`, first conjunct: the failed write leaves
the buffer unchanged, the eviction read returns the oldest frame, the
retried write succeeds, the engine's buffer ends in the retried-write state,
and the final queue is the old queue minus its head plus the new frame) and
for the capture callback's encoded-packet path
(`OboeCaptureEngine` Phase-3 commit, second conjunct: the eviction
`read(discard, 1, ..)` advances past the oldest slot even though the 1-byte
destination drops it, the retried write succeeds, and the buffer is full
again with the newest packet stored). With a 1-slot backing array the
eviction read finds the buffer empty and the retry fails (see the
counterexample), so the claim is restricted to buffers of at least 2
slots. -/
theorem evict_oldest_retry_succeeds :
    (∀ (e : OboePlaybackEngine) (rb : PacketRingBuffer) (samples : List ℤ),
      e.ringBuffer = some rb →
      2 ≤ rb.maxFrames → rb.writeIndex < rb.maxFrames →
      rb.readIndex < rb.maxFrames → rb.buffer.length = rb.maxFrames →
      rb.availableFrames = (rb.maxFrames : ℤ) - 1 →
      (rb.write samples rb.frameSamples).1 = false ∧
      (rb.read rb.frameSamples).1 = some (rb.contents.headD []) ∧
      ((rb.read rb.frameSamples).2.write samples rb.frameSamples).1 = true ∧
      (e.writeSamples samples rb.frameSamples).2.ringBuffer =
        some ((rb.read rb.frameSamples).2.write samples rb.frameSamples).2 ∧
      ((rb.read rb.frameSamples).2.write samples rb.frameSamples).2.contents =
        rb.contents.drop 1 ++ [samples]) ∧
    (∀ (erb : EncodedRingBuffer) (data : List ℕ) (len : ℕ),
      2 ≤ erb.maxSlots → erb.writeIndex < erb.maxSlots →
      erb.readIndex < erb.maxSlots →
      1 ≤ len → len ≤ erb.maxBytesPerSlot →
      erb.availableSlots = (erb.maxSlots : ℤ) - 1 →
      (erb.write data len).1 = false ∧
      ((erb.read 1).2.2.2.write data len).1 = true ∧
      (OboeCaptureEngine.commitEncoded erb data len).availableSlots =
        (erb.maxSlots : ℤ) - 1) := by
  constructor
  · intro e rb samples hring hN2 hw hr hlen hfull
    have hN : 0 < rb.maxFrames := by omega
    have hfulleq : (rb.writeIndex + 1) % rb.maxFrames = rb.readIndex :=
      (ringAvail_full_iff rb.maxFrames rb.writeIndex rb.readIndex hw hr).2 hfull
    have hw1 : rb.write samples rb.frameSamples = (false, rb) :=
      rb.write_full_eq samples hfulleq
    have hnonempty : rb.readIndex ≠ rb.writeIndex := by
      intro h
      have := (ringAvail_empty_iff rb.maxFrames rb.writeIndex rb.readIndex hw hr).1 h
      rw [PacketRingBuffer.availableFrames] at hfull
      omega
    have hrd := rb.read_succ_eq hnonempty
    have hpos : 0 < rb.availableFrames.toNat := by
      rw [PacketRingBuffer.availableFrames] at hfull ⊢
      omega
    have hhead := rb.contents_headD hr hpos
    set rb2 : PacketRingBuffer :=
      { rb with readIndex := (rb.readIndex + 1) % rb.maxFrames } with hrb2
    have hne2 : (rb2.writeIndex + 1) % rb2.maxFrames ≠ rb2.readIndex := by
      show (rb.writeIndex + 1) % rb.maxFrames ≠ (rb.readIndex + 1) % rb.maxFrames
      rw [hfulleq]
      intro hcol
      have hcol' : (rb.readIndex + 0) % rb.maxFrames =
          (rb.readIndex + 1) % rb.maxFrames := by
        rw [Nat.add_zero, Nat.mod_eq_of_lt hr]
        exact hcol
      have := mod_shift_inj rb.maxFrames rb.readIndex 0 1 (by omega) (by omega)
        hcol'
      omega
    have hw2 : rb2.write samples rb2.frameSamples =
        (true, { rb2 with buffer := rb2.buffer.set rb2.writeIndex samples,
                          writeIndex := (rb2.writeIndex + 1) % rb2.maxFrames }) :=
      rb2.write_succ_eq samples hne2
    refine ⟨by rw [hw1], ?_, ?_, ?_, ?_⟩
    · rw [hrd, hhead]
    · rw [hrd]
      show (rb2.write samples rb.frameSamples).1 = true
      have hfs : rb.frameSamples = rb2.frameSamples := rfl
      rw [hfs, hw2]
    · simp only [OboePlaybackEngine.writeSamples, hring, hw1]
      simp
    · rw [hrd]
      show (rb2.write samples rb.frameSamples).2.contents = _
      have hfs : rb.frameSamples = rb2.frameSamples := rfl
      rw [hfs]
      rw [rb2.contents_after_write samples hw (Nat.mod_lt _ hN) hlen hne2]
      rw [show rb2.contents = (rb.read rb.frameSamples).2.contents from by rw [hrd]]
      rw [rb.contents_after_read hw hr hnonempty]
  · intro erb data len hN2 hw hr hlen1 hlen2 hfull
    have hN : 0 < erb.maxSlots := by omega
    have hbad : ¬(len = 0 ∨ erb.maxBytesPerSlot < len) := by omega
    have hfulleq : (erb.writeIndex + 1) % erb.maxSlots = erb.readIndex :=
      (ringAvail_full_iff erb.maxSlots erb.writeIndex erb.readIndex hw hr).2 hfull
    have hw1 : erb.write data len = (false, erb) := by
      simp only [EncodedRingBuffer.write, if_pos hfulleq, if_neg hbad]
    have hnonempty : erb.readIndex ≠ erb.writeIndex := by
      intro h
      have := (ringAvail_empty_iff erb.maxSlots erb.writeIndex erb.readIndex hw hr).1 h
      rw [EncodedRingBuffer.availableSlots] at hfull
      omega
    have hrd := erb.read_advance_eq 1 hnonempty
    set erb2 : EncodedRingBuffer :=
      { erb with readIndex := (erb.readIndex + 1) % erb.maxSlots } with herb2
    have hne2 : (erb2.writeIndex + 1) % erb2.maxSlots ≠ erb2.readIndex := by
      show (erb.writeIndex + 1) % erb.maxSlots ≠ (erb.readIndex + 1) % erb.maxSlots
      rw [hfulleq]
      intro hcol
      have hcol' : (erb.readIndex + 0) % erb.maxSlots =
          (erb.readIndex + 1) % erb.maxSlots := by
        rw [Nat.add_zero, Nat.mod_eq_of_lt hr]
        exact hcol
      have := mod_shift_inj erb.maxSlots erb.readIndex 0 1 (by omega) (by omega)
        hcol'
      omega
    have hbad2 : ¬(len = 0 ∨ erb2.maxBytesPerSlot < len) := hbad
    have hw2 : erb2.write data len =
        (true, { erb2 with
                 slots := erb2.slots.set erb2.writeIndex (len, data.take len),
                 writeIndex := (erb2.writeIndex + 1) % erb2.maxSlots }) := by
      simp only [EncodedRingBuffer.write, if_neg hbad2, if_neg hne2]
    refine ⟨by rw [hw1], ?_, ?_⟩
    · rw [hrd]
      show (erb2.write data len).1 = true
      rw [hw2]
    · rw [OboeCaptureEngine.commitEncoded, hw1]
      simp only [Bool.false_eq_true, if_false]
      rw [hrd]
      show ((erb2.write data len).2).availableSlots = _
      rw [hw2]
      show ringAvail erb.maxSlots ((erb.writeIndex + 1) % erb.maxSlots)
        ((erb.readIndex + 1) % erb.maxSlots) = (erb.maxSlots : ℤ) - 1
      have h1 := ringAvail_read_succ erb.maxSlots erb.writeIndex erb.readIndex
        hw hr hnonempty
      have h2 := ringAvail_write_succ erb.maxSlots erb.writeIndex
        ((erb.readIndex + 1) % erb.maxSlots) hw (Nat.mod_lt _ hN) hne2
      rw [EncodedRingBuffer.availableSlots] at hfull
      omega

/-- C4 witness: the amended theorem applied to a full 3-slot playback
buffer holding frames [5], [6] (the retried write of [7] succeeds and the
queue becomes [6], [7]) and to a full 2-slot encoded buffer (the retried
write of the 2-byte packet succeeds). -/
theorem evict_oldest_retry_succeeds_witness :
    ((rbFull.write [7] 1).1 = false ∧
     ((rbFull.read 1).2.write [7] 1).1 = true ∧
     ((rbFull.read 1).2.write [7] 1).2.contents =
       rbFull.contents.drop 1 ++ [[7]]) ∧
    ((erbFull.write [8, 8] 2).1 = false ∧
     ((erbFull.read 1).2.2.2.write [8, 8] 2).1 = true) := by
  have h1 := evict_oldest_retry_succeeds.1 pbEngineFull rbFull [7]
    (by decide) (by decide) (by decide) (by decide) (by decide) (by decide)
  have h2 := evict_oldest_retry_succeeds.2 erbFull [8, 8] 2
    (by decide) (by decide) (by decide) (by decide) (by decide) (by decide)
  exact ⟨⟨h1.1, h1.2.2.1, h1.2.2.2.2⟩, h2.1, h2.2.1⟩

/-- C6: the wire-header → library-mode table takes headers 0x00..0x06 to
library modes 8, 5, 4, 3, 2, 1, 0 respectively, and for every supported
wire header `h` the round trip
`libraryModeToHeader(headerToLibraryMode(h)) == h` holds. -/
theorem codec2_header_mode_mapping :
    (CodecWrapper.headerToLibraryMode 0x00 = 8 ∧
     CodecWrapper.headerToLibraryMode 0x01 = 5 ∧
     CodecWrapper.headerToLibraryMode 0x02 = 4 ∧
     CodecWrapper.headerToLibraryMode 0x03 = 3 ∧
     CodecWrapper.headerToLibraryMode 0x04 = 2 ∧
     CodecWrapper.headerToLibraryMode 0x05 = 1 ∧
     CodecWrapper.headerToLibraryMode 0x06 = 0) ∧
    (∀ h : Fin 7,
      CodecWrapper.libraryModeToHeader (CodecWrapper.headerToLibraryMode h.val) =
        h.val) := by
  decide

/-- Same-mode decode: no switch, `floor(payload/bytesPerFrame)` sub-frames. -/
lemma CodecWrapper.c2Decode_same_mode (spf bpf : ℕ → ℕ) (st : Codec2State)
    (encoded : List ℕ) (maxOut : ℕ) (h1 : 1 ≤ encoded.length)
    (h2 : encoded.headD 0 = st.c2ModeHeader)
    (h3 : ((encoded.length - 1) / st.c2BytesPerFrame) * st.c2SamplesPerFrame ≤
      maxOut) :
    CodecWrapper.c2Decode spf bpf st encoded maxOut =
      some (((encoded.length - 1) / st.c2BytesPerFrame) * st.c2SamplesPerFrame,
            st) := by
  have hlen : ¬(encoded.length < 1) := by omega
  simp only [CodecWrapper.c2Decode, if_neg hlen, if_neg (not_ne_iff.mpr h2)]
  rw [if_neg (by omega :
    ¬(maxOut < ((encoded.length - 1) / st.c2BytesPerFrame) *
      st.c2SamplesPerFrame))]

/-- Known-header mode switch: the codec is recreated for the mapped mode
and decoding proceeds with the new mode's geometry. -/
lemma CodecWrapper.c2Decode_switch (spf bpf : ℕ → ℕ) (st : Codec2State)
    (encoded : List ℕ) (maxOut : ℕ) (h1 : 1 ≤ encoded.length)
    (h2 : encoded.headD 0 ≠ st.c2ModeHeader)
    (h3 : 0 ≤ CodecWrapper.headerToLibraryMode (encoded.headD 0))
    (h4 : ((encoded.length - 1) /
        bpf (CodecWrapper.headerToLibraryMode (encoded.headD 0)).toNat) *
      spf (CodecWrapper.headerToLibraryMode (encoded.headD 0)).toNat ≤ maxOut) :
    CodecWrapper.c2Decode spf bpf st encoded maxOut =
      some (((encoded.length - 1) /
               bpf (CodecWrapper.headerToLibraryMode (encoded.headD 0)).toNat) *
              spf (CodecWrapper.headerToLibraryMode (encoded.headD 0)).toNat,
            { c2LibraryMode :=
                (CodecWrapper.headerToLibraryMode (encoded.headD 0)).toNat
              c2ModeHeader := encoded.headD 0
              c2SamplesPerFrame :=
                spf (CodecWrapper.headerToLibraryMode (encoded.headD 0)).toNat
              c2BytesPerFrame :=
                bpf (CodecWrapper.headerToLibraryMode (encoded.headD 0)).toNat }) := by
  have hlen : ¬(encoded.length < 1) := by omega
  simp only [CodecWrapper.c2Decode, if_neg hlen, if_pos h2, if_pos h3]
  rw [if_neg (by omega :
    ¬(maxOut < ((encoded.length - 1) /
        bpf (CodecWrapper.headerToLibraryMode (encoded.headD 0)).toNat) *
      spf (CodecWrapper.headerToLibraryMode (encoded.headD 0)).toNat))]

/-- Unknown-header decode failure. -/
lemma CodecWrapper.c2Decode_unknown (spf bpf : ℕ → ℕ) (st : Codec2State)
    (encoded : List ℕ) (maxOut : ℕ) (h1 : 1 ≤ encoded.length)
    (h2 : encoded.headD 0 ≠ st.c2ModeHeader)
    (h3 : CodecWrapper.headerToLibraryMode (encoded.headD 0) = -1) :
    CodecWrapper.c2Decode spf bpf st encoded maxOut = none := by
  have hlen : ¬(encoded.length < 1) := by omega
  have h4 : ¬(0 ≤ CodecWrapper.headerToLibraryMode (encoded.headD 0)) := by
    rw [h3]
    norm_num
  simp only [CodecWrapper.c2Decode, if_neg hlen, if_pos h2, if_neg h4]


/-- C5: Codec2 decoding. (1) A packet whose header equals the active mode
decodes exactly `floor(payloadLength / bytesPerFrame)` whole sub-frames,
returning that many times `samplesPerFrame` samples with any remainder
bytes ignored and the codec state unchanged. (2) A packet whose header
differs but maps to a known mode makes the adapter tear down and recreate
the codec instance for the new mode before decoding: the result state
carries the new library mode, the new header and the new mode's frame
geometry, and the sub-frame count is computed with the new mode's
`bytesPerFrame`. (3) A packet whose header maps to no mode (it then also
differs from the active header, which on every reachable adapter state is
one of the seven valid values) makes decode fail. (4) Concrete scenario:
with the codec created for library mode 0 ("3200", wire header 0x06), a
packet `0x06` followed by `2 × bytesPerFrame(mode 0)` payload bytes decodes
to exactly `2 × samplesPerFrame(mode 0)` samples with no mode switch, and a
subsequent packet with header 0x00 forces a switch to library mode 8 before
decoding. The library's per-mode frame geometry is the black-box parameter
pair `spf`/`bpf`. -/
theorem codec2_decode_subframes :
    (∀ (spf bpf : ℕ → ℕ) (st : Codec2State) (encoded : List ℕ) (maxOut : ℕ),
      1 ≤ encoded.length →
      encoded.headD 0 = st.c2ModeHeader →
      ((encoded.length - 1) / st.c2BytesPerFrame) * st.c2SamplesPerFrame ≤
        maxOut →
      CodecWrapper.c2Decode spf bpf st encoded maxOut =
        some (((encoded.length - 1) / st.c2BytesPerFrame) *
                st.c2SamplesPerFrame, st)) ∧
    (∀ (spf bpf : ℕ → ℕ) (st : Codec2State) (encoded : List ℕ) (maxOut : ℕ),
      1 ≤ encoded.length →
      encoded.headD 0 ≠ st.c2ModeHeader →
      0 ≤ CodecWrapper.headerToLibraryMode (encoded.headD 0) →
      ((encoded.length - 1) /
          bpf (CodecWrapper.headerToLibraryMode (encoded.headD 0)).toNat) *
        spf (CodecWrapper.headerToLibraryMode (encoded.headD 0)).toNat ≤
        maxOut →
      CodecWrapper.c2Decode spf bpf st encoded maxOut =
        some (((encoded.length - 1) /
                 bpf (CodecWrapper.headerToLibraryMode (encoded.headD 0)).toNat) *
                spf (CodecWrapper.headerToLibraryMode (encoded.headD 0)).toNat,
              { c2LibraryMode :=
                  (CodecWrapper.headerToLibraryMode (encoded.headD 0)).toNat
                c2ModeHeader := encoded.headD 0
                c2SamplesPerFrame :=
                  spf (CodecWrapper.headerToLibraryMode (encoded.headD 0)).toNat
                c2BytesPerFrame :=
                  bpf (CodecWrapper.headerToLibraryMode (encoded.headD 0)).toNat })) ∧
    (∀ (spf bpf : ℕ → ℕ) (st : Codec2State) (encoded : List ℕ) (maxOut : ℕ),
      1 ≤ encoded.length →
      encoded.headD 0 ≠ st.c2ModeHeader →
      CodecWrapper.headerToLibraryMode (encoded.headD 0) = -1 →
      CodecWrapper.c2Decode spf bpf st encoded maxOut = none) ∧
    (∀ (spf bpf : ℕ → ℕ) (payload p2 : List ℕ) (maxOut maxOut2 : ℕ),
      payload.length = 2 * bpf 0 →
      0 < bpf 0 →
      2 * spf 0 ≤ maxOut →
      (p2.length / bpf 8) * spf 8 ≤ maxOut2 →
      CodecWrapper.c2Decode spf bpf (CodecWrapper.createCodec2 spf bpf 0)
          (0x06 :: payload) maxOut =
        some (2 * spf 0, CodecWrapper.createCodec2 spf bpf 0) ∧
      CodecWrapper.c2Decode spf bpf (CodecWrapper.createCodec2 spf bpf 0)
          (0x00 :: p2) maxOut2 =
        some ((p2.length / bpf 8) * spf 8,
              { c2LibraryMode := 8
                c2ModeHeader := 0x00
                c2SamplesPerFrame := spf 8
                c2BytesPerFrame := bpf 8 })) := by
  refine ⟨CodecWrapper.c2Decode_same_mode, CodecWrapper.c2Decode_switch,
    CodecWrapper.c2Decode_unknown, ?_⟩
  intro spf bpf payload p2 maxOut maxOut2 hp hb hm hm8
  have hfields : CodecWrapper.createCodec2 spf bpf 0 =
      ⟨0, 6, spf 0, bpf 0⟩ := rfl
  have hcount : ((0x06 :: payload).length - 1) / bpf 0 * spf 0 = 2 * spf 0 := by
    simp only [List.length_cons, Nat.add_sub_cancel, hp]
    rw [Nat.mul_div_cancel _ hb]
  constructor
  · rw [hfields]
    rw [CodecWrapper.c2Decode_same_mode spf bpf ⟨0, 6, spf 0, bpf 0⟩
      (0x06 :: payload) maxOut (by simp) rfl (by rw [hcount]; exact hm)]
    rw [hcount]
  · rw [hfields]
    have hmode : CodecWrapper.headerToLibraryMode ((0x00 :: p2).headD 0) = 8 :=
      rfl
    have h8 : (CodecWrapper.headerToLibraryMode ((0x00 :: p2).headD 0)).toNat = 8 :=
      rfl
    rw [CodecWrapper.c2Decode_switch spf bpf ⟨0, 6, spf 0, bpf 0⟩
      (0x00 :: p2) maxOut2 (by simp) (by simp)
      (by rw [hmode]; norm_num)
      (by simpa [h8] using hm8)]
    have h8' : (CodecWrapper.headerToLibraryMode 0).toNat = 8 := rfl
    simp [h8']


/-- C5 witness: the scenario part applied at the real Codec2 geometry
(mode 0: 160 samples / 8 bytes per frame; mode 8: 320 samples / 4 bytes):
the two-sub-frame 0x06 packet decodes to 320 samples with the state
unchanged, and the 0x00 packet switches to library mode 8. -/
theorem codec2_decode_subframes_witness :
    CodecWrapper.c2Decode c5spf c5bpf (CodecWrapper.createCodec2 c5spf c5bpf 0)
        (0x06 :: List.replicate 16 0) 1000 =
      some (320, CodecWrapper.createCodec2 c5spf c5bpf 0) ∧
    CodecWrapper.c2Decode c5spf c5bpf (CodecWrapper.createCodec2 c5spf c5bpf 0)
        (0x00 :: List.replicate 4 0) 1000 =
      some (320, { c2LibraryMode := 8
                   c2ModeHeader := 0x00
                   c2SamplesPerFrame := 320
                   c2BytesPerFrame := 4 }) := by
  have h := codec2_decode_subframes.2.2.2 c5spf c5bpf
    (List.replicate 16 0) (List.replicate 4 0) 1000 1000
    (by decide) (by decide) (by decide) (by decide)
  exact ⟨h.1, h.2⟩


/-- The code's inner high-pass loop is a constant gain: because the
previous FILTERED sample is both added and subtracted, every output is
`alpha * x[n]` regardless of the running state. -/
lemma VoiceFilterChain.hpLoop_gain (alpha : ℚ) :
    ∀ (prev : ℚ) (xs : List ℚ),
      VoiceFilterChain.hpLoop alpha prev xs = xs.map (fun s => alpha * s) := by
  intro prev xs
  induction xs generalizing prev with
  | nil => rfl
  | cons x rest ih =>
    simp only [VoiceFilterChain.hpLoop, List.map_cons, List.cons.injEq]
    constructor
    · ring
    · exact ih _

/-- C7 (code bug): `VoiceFilterChain::applyHighPass` does not compute the
claimed recurrence `y[n] = α·(y[n-1] + x[n] - x[n-1])` over the raw input.
Because the filter runs in place, `samples[prevIdx]` is the already-filtered
previous output, so the whole stage collapses to the constant gain
`y[n] = α·x[n]` on every reachable state (first conjunct: whenever the two
persisted state cells are equal — they are initialised equal and the code
saves the same value into both after every call). At the concrete input
`α = 1/2`, zero initial state, samples `[1, 0]`: the code produces
`[1/2, 0]` while the claimed recurrence produces `[1/2, -1/4]`, and the
code saves the filtered output `0` into `lastInputs` where the claim
requires the raw input `0`... (state pair becomes `(0, 0)` coincidentally
equal here, so the recurrence divergence is the witness of the bug). -/
theorem highpass_constant_gain_bug :
    (∀ (alpha st x : ℚ) (xs : List ℚ),
      (VoiceFilterChain.applyHighPass alpha st st (x :: xs)).1 =
        (x :: xs).map (fun s => alpha * s)) ∧
    (VoiceFilterChain.applyHighPass (1/2) 0 0 [1, 0]).1 = [1/2, 0] ∧
    hpSpecProcess (1/2) 0 0 [1, 0] = [1/2, -1/4] ∧
    (VoiceFilterChain.applyHighPass (1/2) 0 0 [1, 0]).1 ≠
      hpSpecProcess (1/2) 0 0 [1, 0] := by
  refine ⟨?_, ?_, ?_, ?_⟩
  · intro alpha st x xs
    simp only [VoiceFilterChain.applyHighPass, VoiceFilterChain.hpLoop_gain,
      List.map_cons, List.cons.injEq]
    exact ⟨by ring, trivial⟩
  · norm_num [VoiceFilterChain.applyHighPass, VoiceFilterChain.hpLoop]
  · norm_num [hpSpecProcess, hpSpecLoop]
  · intro h
    have h1 : (VoiceFilterChain.applyHighPass (1/2) 0 0 [1, 0]).1 = [1/2, 0] := by
      norm_num [VoiceFilterChain.applyHighPass, VoiceFilterChain.hpLoop]
    have h2 : hpSpecProcess (1/2) 0 0 [1, 0] = [1/2, -1/4] := by
      norm_num [hpSpecProcess, hpSpecLoop]
    rw [h1, h2] at h
    norm_num at h


/-- C9: when `EncodedRingBuffer::read` is called on a nonempty buffer with a
destination capacity smaller than the stored length of the oldest packet,
the whole packet is dropped: nothing is copied to the destination, the read
index still advances past the packet, `*actualLength` is set to 0, and the
call returns `false`; the slots themselves are untouched. -/
theorem encoded_read_drop_when_dest_too_small :
    ∀ (s : EncodedRingBuffer) (maxLength : ℕ),
      s.readIndex ≠ s.writeIndex →
      maxLength < (s.slots.getD s.readIndex (0, [])).1 →
      s.read maxLength =
        (false, none, some 0,
         { s with readIndex := (s.readIndex + 1) % s.maxSlots }) := by
  intro s maxLength hne hdrop
  simp only [EncodedRingBuffer.read, if_neg hne, if_pos hdrop]

/-- C9 witness: reading the full 2-slot buffer (oldest packet stored length
1) with a 0-byte destination drops the packet: failure, nothing copied,
actual length 0, read index advanced. -/
theorem encoded_read_drop_when_dest_too_small_witness :
    erbFull.read 0 =
      (false, none, some 0,
       { erbFull with readIndex := (erbFull.readIndex + 1) % erbFull.maxSlots }) := by
  exact encoded_read_drop_when_dest_too_small erbFull 0 (by decide) (by decide)

lemma serveLoop_zero (F fuel : ℕ) (rb : PacketRingBuffer) (cb : List ℤ)
    (off val plc : ℕ) :
    OboePlaybackEngine.serveLoop F fuel rb cb off val plc 0 =
      ([], rb, cb, off, val, plc) := by
  cases fuel with
  | zero => rfl
  | succ f => simp [OboePlaybackEngine.serveLoop]

lemma serveLoop_empty (F fuel : ℕ) (rb : PacketRingBuffer) (cb : List ℤ)
    (off plc remaining : ℕ) (hF : F ≠ 0)
    (hempty : rb.readIndex = rb.writeIndex) :
    OboePlaybackEngine.serveLoop F fuel rb cb off 0 plc remaining =
      ([], rb, cb, off, 0, plc) := by
  have hread : rb.read F = (none, rb) := by
    by_cases hc : F ≠ rb.frameSamples
    · simp only [PacketRingBuffer.read, if_pos hc]
    · simp only [PacketRingBuffer.read, if_neg hc, if_pos hempty]
  cases fuel with
  | zero => rfl
  | succ f =>
    by_cases hrem : remaining = 0
    · simp [OboePlaybackEngine.serveLoop, hrem]
    · simp only [OboePlaybackEngine.serveLoop, if_neg hrem,
        lt_irrefl, if_false, if_neg hF, hread]
      split <;> rfl


lemma plc_underrun_step (plcVal : ℤ) (e : OboePlaybackEngine) (numFrames : ℕ)
    (rb : PacketRingBuffer)
    (hdes : e.destroyed = false) (hmut : e.playbackMuted = false)
    (hring : e.ringBuffer = some rb)
    (hempty : rb.readIndex = rb.writeIndex)
    (hval : e.callbackBufferValid = 0)
    (hdec : e.decoder = some CodecType.OPUS)
    (htot : 0 < numFrames * e.channels)
    (hdiv : 0 < e.frameSamples / e.channels) :
    ((e.onAudioReady plcVal numFrames).2.2.consecutivePlcCount =
      (if e.consecutivePlcCount < 5 then e.consecutivePlcCount + 1
       else e.consecutivePlcCount)) ∧
    (e.consecutivePlcCount < 5 →
      (e.onAudioReady plcVal numFrames).1 =
        (CodecWrapper.decodePlc plcVal (e.frameSamples / e.channels)).take
            (min (numFrames * e.channels) (e.frameSamples / e.channels)) ++
          List.replicate (numFrames * e.channels -
            min (numFrames * e.channels) (e.frameSamples / e.channels)) 0) ∧
    (5 ≤ e.consecutivePlcCount →
      (e.onAudioReady plcVal numFrames).1 =
        List.replicate (numFrames * e.channels) 0) := by
  have hF : e.frameSamples ≠ 0 := by
    intro h
    rw [h, Nat.zero_div] at hdiv
    omega
  have hserve := serveLoop_empty e.frameSamples (numFrames * e.channels) rb
    e.callbackBuffer e.callbackBufferOffset e.consecutivePlcCount
    (numFrames * e.channels) hF hempty
  simp only [OboePlaybackEngine.onAudioReady, hdes, hmut, Bool.false_eq_true,
    if_false, hring, hval, hserve]
  simp only [OboePlaybackEngine.underrunFill, List.length_nil, hdec,
    CodecWrapper.decodePlc, List.length_replicate, Nat.sub_zero, if_pos htot,
    eq_self_iff_true, true_and]
  by_cases h5 : e.consecutivePlcCount < 5
  · simp only [if_pos h5, if_pos hdiv, List.nil_append]
    exact ⟨trivial, fun _ => trivial, fun hge => by omega⟩
  · simp only [if_neg h5, List.nil_append]
    exact ⟨trivial, fun hlt => absurd hlt h5, fun _ => trivial⟩


lemma plc_reset_on_real_frame (plcVal : ℤ) (e : OboePlaybackEngine)
    (numFrames : ℕ) (rb : PacketRingBuffer)
    (hdes : e.destroyed = false) (hmut : e.playbackMuted = false)
    (hring : e.ringBuffer = some rb)
    (hne : rb.readIndex ≠ rb.writeIndex)
    (hfs : rb.frameSamples = e.frameSamples)
    (hval : e.callbackBufferValid = 0)
    (hF : 0 < e.frameSamples)
    (hflen : (rb.buffer.getD rb.readIndex []).length = e.frameSamples)
    (htot : numFrames * e.channels = e.frameSamples) :
    (e.onAudioReady plcVal numFrames).1 = rb.buffer.getD rb.readIndex [] ∧
    (e.onAudioReady plcVal numFrames).2.2.consecutivePlcCount = 0 := by
  have hread : rb.read e.frameSamples =
      (some (rb.buffer.getD rb.readIndex []),
       { rb with readIndex := (rb.readIndex + 1) % rb.maxFrames }) := by
    rw [← hfs]
    exact rb.read_succ_eq hne
  obtain ⟨f, hf⟩ : ∃ f, e.frameSamples = f + 1 :=
    ⟨e.frameSamples - 1, by omega⟩
  rw [hf] at hread
  have hserve : OboePlaybackEngine.serveLoop e.frameSamples
      (numFrames * e.channels) rb e.callbackBuffer e.callbackBufferOffset 0
      e.consecutivePlcCount (numFrames * e.channels) =
      (rb.buffer.getD rb.readIndex [],
       { rb with readIndex := (rb.readIndex + 1) % rb.maxFrames },
       e.callbackBuffer, e.callbackBufferOffset, 0, 0) := by
    rw [htot, hf]
    simp only [OboePlaybackEngine.serveLoop, Nat.succ_ne_zero, if_neg,
      lt_irrefl, if_false]
    rw [if_pos (le_refl (f + 1))]
    simp only [hread, Nat.sub_self, serveLoop_zero, List.append_nil]
  simp only [OboePlaybackEngine.onAudioReady, hdes, hmut, Bool.false_eq_true,
    if_false, hring, hval, hserve]
  simp only [OboePlaybackEngine.underrunFill, hflen, htot, lt_irrefl,
    if_false, if_neg (lt_irrefl e.frameSamples)]
  exact ⟨by trivial, by trivial⟩


/-- C8: on playback underruns with an Opus decoder configured, the callback
serves a concealment frame instead of silence exactly while the
consecutive-concealment counter is below 5, incrementing it per concealment
frame (first conjunct, via `plc_underrun_step`: with the ring buffer empty
and no pending partial frame, the output is the concealment frame — padded
with zeros if the burst is longer — iff the counter is below 5, and silence
otherwise, the counter unchanged); every real frame read from the ring
buffer resets the counter to zero (second conjunct); and concretely, from a
fresh engine six consecutive underrun callbacks yield five concealment
outputs `[3, 3]` then silence `[0, 0]` with the counter pinned at 5, until
a real frame `[7, 7]` arrives, is served, and resets the counter (third
conjunct). `decodePlc` is modelled from the spec (its definition is missing
from the sources); concealment content is the abstract sample `plcVal`
(`3` in the scenario). -/
theorem plc_concealment_cap :
    (∀ (plcVal : ℤ) (e : OboePlaybackEngine) (numFrames : ℕ)
       (rb : PacketRingBuffer),
      e.destroyed = false → e.playbackMuted = false →
      e.ringBuffer = some rb → rb.readIndex = rb.writeIndex →
      e.callbackBufferValid = 0 → e.decoder = some CodecType.OPUS →
      0 < numFrames * e.channels → 0 < e.frameSamples / e.channels →
      ((e.onAudioReady plcVal numFrames).2.2.consecutivePlcCount =
        (if e.consecutivePlcCount < 5 then e.consecutivePlcCount + 1
         else e.consecutivePlcCount)) ∧
      (e.consecutivePlcCount < 5 →
        (e.onAudioReady plcVal numFrames).1 =
          (CodecWrapper.decodePlc plcVal (e.frameSamples / e.channels)).take
              (min (numFrames * e.channels) (e.frameSamples / e.channels)) ++
            List.replicate (numFrames * e.channels -
              min (numFrames * e.channels) (e.frameSamples / e.channels)) 0) ∧
      (5 ≤ e.consecutivePlcCount →
        (e.onAudioReady plcVal numFrames).1 =
          List.replicate (numFrames * e.channels) 0)) ∧
    (∀ (plcVal : ℤ) (e : OboePlaybackEngine) (numFrames : ℕ)
       (rb : PacketRingBuffer),
      e.destroyed = false → e.playbackMuted = false →
      e.ringBuffer = some rb → rb.readIndex ≠ rb.writeIndex →
      rb.frameSamples = e.frameSamples → e.callbackBufferValid = 0 →
      0 < e.frameSamples →
      (rb.buffer.getD rb.readIndex []).length = e.frameSamples →
      numFrames * e.channels = e.frameSamples →
      (e.onAudioReady plcVal numFrames).1 = rb.buffer.getD rb.readIndex [] ∧
      (e.onAudioReady plcVal numFrames).2.2.consecutivePlcCount = 0) ∧
    ((c8e0.onAudioReady 3 2).1 = [3, 3] ∧ c8e1.consecutivePlcCount = 1 ∧
     (c8e1.onAudioReady 3 2).1 = [3, 3] ∧ c8e2.consecutivePlcCount = 2 ∧
     (c8e2.onAudioReady 3 2).1 = [3, 3] ∧ c8e3.consecutivePlcCount = 3 ∧
     (c8e3.onAudioReady 3 2).1 = [3, 3] ∧ c8e4.consecutivePlcCount = 4 ∧
     (c8e4.onAudioReady 3 2).1 = [3, 3] ∧ c8e5.consecutivePlcCount = 5 ∧
     (c8e5.onAudioReady 3 2).1 = [0, 0] ∧ c8e6.consecutivePlcCount = 5 ∧
     (c8e7.onAudioReady 3 2).1 = [7, 7] ∧
     ((c8e7.onAudioReady 3 2).2.2).consecutivePlcCount = 0) := by
  exact ⟨plc_underrun_step, plc_reset_on_real_frame, by decide⟩

/-- C8 witness: the underrun part applied at the fresh scenario engine
(counter 0 below the cap, concealment served, counter becomes 1) and the
real-frame part applied after the frame [7, 7] arrives (counter reset). -/
theorem plc_concealment_cap_witness :
    (c8e0.onAudioReady 3 2).2.2.consecutivePlcCount = 1 ∧
    (c8e0.onAudioReady 3 2).1 = [3, 3] ∧
    (c8e7.onAudioReady 3 2).2.2.consecutivePlcCount = 0 := by
  have ha := plc_concealment_cap.1 3 c8e0 2 (PacketRingBuffer.mk0 2 2)
    (by decide) (by decide) (by decide) (by decide) (by decide) (by decide)
    (by decide) (by decide)
  have hb := plc_concealment_cap.2.1 3 c8e7 2
    (((PacketRingBuffer.mk0 2 2).write [7, 7] 2).2)
    (by decide) (by decide) (by decide) (by decide) (by decide) (by decide)
    (by decide) (by decide) (by decide)
  refine ⟨ha.1.trans (by decide), (ha.2.1 (by decide)).trans (by decide), hb.2⟩

/-- C10 counterexample: the claim fails for the capture pipeline. The
`OboeCaptureEngine` class has no destroyed flag at all
(oboe_capture_engine.h declares only `isCreated_`/`isRecording_`), and its
`onAudioReady` performs no teardown check: a callback invocation after
`destroy()` — whose state is shown here: both buffers freed — dereferences
the freed accumulation and ring buffers (`none` = the null-pointer
dereference the C++ would perform) instead of zero-filling and stopping as
the claim asserts; the same invocation on the live engine runs normally. -/
theorem destroyed_guard_counterexample :
    capEngine.destroy.onAudioReady [0] = none ∧
    (capEngine.onAudioReady [0]).isSome = true ∧
    capEngine.destroy.ringBuffer = none ∧
    capEngine.destroy.accumBuffer = none := by
  decide

/-- C10 (amended): only the playback pipeline has a destroyed flag. Once
it is set, every subsequent playback callback checks it first and is a
no-op apart from zero-filling its burst and signalling the driver to stop:
the engine state — ring buffer, callback buffer, PLC counter, decoder —
is returned untouched. The capture callback performs no such check (see
the counterexample); it relies on the stream having been closed before its
buffers are freed. -/
theorem destroyed_guard_playback_only :
    ∀ (plcVal : ℤ) (e : OboePlaybackEngine) (numFrames : ℕ),
      e.destroyed = true →
      e.onAudioReady plcVal numFrames =
        (List.replicate (numFrames * e.channels) 0,
         DataCallbackResult.Stop, e) := by
  intro plcVal e numFrames h
  simp only [OboePlaybackEngine.onAudioReady, h, if_true]

/-- C10 witness: the destroyed playback engine's callback zero-fills a
3-frame burst, stops, and leaves the engine unchanged. -/
theorem destroyed_guard_playback_only_witness :
    pbEngine1.destroy.onAudioReady 0 3 =
      (List.replicate 3 0, DataCallbackResult.Stop, pbEngine1.destroy) := by
  exact destroyed_guard_playback_only 0 pbEngine1.destroy 3 (by decide)

end LXST
